import Mathlib

/-!
Verification of the mask-to-stroke rendering pipeline of the aura photo-compositing
tool, against its natural-language specification.

The source is a TypeScript/React application.  The repository snapshot contains two
versions of the image-processing module: one working in a "logical units, values
scaled by 2.7" convention (its adaptive-feather divisor is 54) and one working in a
"400 px reference" convention (divisor 20).  Where the two versions differ we embed
both; definitions carrying the suffix `400` are the 400 px-reference version.

Conventions of the embedding:
* machine numbers (JS doubles / Float32) are modelled as exact rationals `ℚ`;
* the JS value `Infinity` used by the distance field is modelled as `⊤ : WithTop ℚ`;
* pixel buffers (`ImageData` / canvas contents) are modelled as total functions from
  pixel index (or integer coordinates) to channel values;
* canvas primitives whose pixel-exact output the browser does not specify
  (Gaussian `filter: blur(..)`, gradient rasterization) are taken as opaque
  function parameters, exactly as the specification's §9 treats them
  ("Canvas-API-shaped compositing verbs … are treated here as an abstract
  raster-operations contract").
-/

/-- Hermite smoothstep helper of the source (`smoothStep`): clamp the normalized
position to `[0,1]`, then apply `x²(3 − 2x)`. -/
def smoothStep (value lo hi : ℚ) : ℚ :=
  let x := max 0 (min 1 ((value - lo) / (hi - lo)))
  x * x * (3 - 2 * x)

/-! ## Orb renderer (`renderOrb`) — claim C10 -/

/-- Gradient stop record (`GradientStop` of the source's types): a position in
`[0,1]` and a color (abstract; colors are hex strings in the source). -/
structure GradientStop where
  id : String
  color : String
  position : ℚ
  deriving DecidableEq, Repr

/-- Orb descriptor, following the `Orb` interface of the source's types module. -/
structure Orb where
  id : String
  name : String
  x : ℚ
  y : ℚ
  radiusX : ℚ
  radiusY : ℚ
  scale : Option ℚ
  rotation : ℚ
  color : String
  stops : List GradientStop
  opacity : ℚ
  blur : ℚ
  isRadial : Bool

/-- The drawing state `renderOrb` configures on the canvas context before filling:
the global alpha, the blur filter radius, the ellipse placement, and the fill
(either the solid color or the sorted radial-gradient stops). -/
structure OrbDrawCommand where
  globalAlpha : ℚ
  blurRadius : ℚ
  cx : ℚ
  cy : ℚ
  rx : ℚ
  ry : ℚ
  rotation : ℚ
  fillSolid : Option String
  fillStops : Option (List GradientStop)

/-- JS `orb.scale || 1`: a missing or zero scale falls back to 1. -/
def orbScaleOr1 (s : Option ℚ) : ℚ :=
  match s with
  | none => 1
  | some v => if v = 0 then 1 else v

/-- Sorting comparator used by the source (`[...stops].sort((a,b) => a.position - b.position)`):
a stable ascending sort by stop position.  JS `Array.prototype.sort` is required to
be stable, and the stable ascending permutation is unique, so we model it by
stable insertion sort (an element is inserted before the first element it is
`≤`, hence before any equal-position element that came later in the input). -/
def stopInsert (s : GradientStop) : List GradientStop → List GradientStop
  | [] => [s]
  | t :: ts => if s.position ≤ t.position then s :: t :: ts else t :: stopInsert s ts

/-- Stable ascending sort of gradient stops by position. -/
def sortStops : List GradientStop → List GradientStop
  | [] => []
  | s :: ss => stopInsert s (sortStops ss)

/-- Shallow embedding of `renderOrb` (identical in both source snapshots): computes
the draw placement and state.  `ctx.globalAlpha = Math.max(0, Math.min(1, orb.opacity))`
is the clamp under verification in C10. -/
def renderOrb (logicalWidth logicalHeight : ℚ) (orb : Orb) : OrbDrawCommand :=
  let x := orb.x * logicalWidth
  let y := orb.y * logicalHeight
  let baseRx := orb.radiusX * orbScaleOr1 orb.scale
  let baseRy := orb.radiusY * orbScaleOr1 orb.scale
  { globalAlpha := max 0 (min 1 orb.opacity)
    blurRadius := orb.blur
    cx := x
    cy := y
    rx := baseRx
    ry := baseRy
    rotation := orb.rotation
    fillSolid := if orb.isRadial then none else some orb.color
    fillStops := if orb.isRadial then some (sortStops orb.stops) else none }

/-! ## Stroke interpolation (`createOutlineFromMask` interior loop) — claims C1, C3 -/

/-- Horizontal parameter of the stroke loop:
`t = Math.max(0, Math.min(1, originalX / width))`, where `originalX` is the pixel
x-coordinate relative to the unpadded canvas and `width` the unpadded canvas width. -/
def tParam (originalX width : ℚ) : ℚ :=
  max 0 (min 1 (originalX / width))

/-- Piecewise-linear three-point interpolation of the stroke loop: for `t < 0.5`
interpolate start→mid with `localT = t / 0.5`; for `t ≥ 0.5` interpolate mid→end
with `localT = (t − 0.5) / 0.5`.  Used verbatim for both target width (on
effective, i.e. scaled, widths) and blur. -/
def interp3 (vStart vMid vEnd t : ℚ) : ℚ :=
  if t < 1/2 then
    vStart + (vMid - vStart) * (t / (1/2))
  else
    vMid + (vEnd - vMid) * ((t - 1/2) / (1/2))

/-- Per-pixel alpha rule of `createOutlineFromMask` in the scaled-convention
snapshot (adaptive-feather divisor 54).  Input: the pixel's chamfer boundary
distance `d` in logical units (`⊤` models `Infinity`), the interpolated target
width `w` and interpolated blur `b`.  Output: `none` when the loop leaves the
pixel fully transparent (`continue`), otherwise the normalized alpha written. -/
def outlinePixelAlpha (d : WithTop ℚ) (w b : ℚ) : Option ℚ :=
  match d with
  | ⊤ => none
  | (dq : ℚ) =>
    if dq = 0 then none
    else
      let adaptiveFeather := if 0 < b then b * (1/2 + w / 54) else 0
      let featherRange := max 1 adaptiveFeather
      if w + featherRange < dq then none
      else if w < dq then some (1 - smoothStep dq w (w + featherRange))
      else some 1

/-- Per-pixel alpha rule of `createOutlineFromMask` in the 400 px-reference
snapshot: identical except the adaptive-feather divisor is 20. -/
def outlinePixelAlpha400 (d : WithTop ℚ) (w b : ℚ) : Option ℚ :=
  match d with
  | ⊤ => none
  | (dq : ℚ) =>
    if dq = 0 then none
    else
      let adaptiveFeather := if 0 < b then b * (1/2 + w / 20) else 0
      let featherRange := max 1 adaptiveFeather
      if w + featherRange < dq then none
      else if w < dq then some (1 - smoothStep dq w (w + featherRange))
      else some 1

/-- Feather radius formula as worded by the specification for claim C1:
`max(1, blurAmount × (0.5 + targetWidth/54))`. -/
def specFeatherRadius (w b : ℚ) : ℚ :=
  max 1 (b * (1/2 + w / 54))

/-- Alpha rule exactly as the specification words it for claim C1 (feather divisor
54): opaque core for `0 < d ≤ w`, smoothstep falloff on `(w, w+feather]`,
transparent at `d = 0`, at `d = ∞` and beyond `w + feather`. -/
def specOutlineAlpha (d : WithTop ℚ) (w b : ℚ) : Option ℚ :=
  match d with
  | ⊤ => none
  | (dq : ℚ) =>
    if dq = 0 then none
    else if w + specFeatherRadius w b < dq then none
    else if w < dq then some (1 - smoothStep dq w (w + specFeatherRadius w b))
    else some 1

/-- Feather radius with the 400 px-reference divisor, as the amended claim C1
states it: `max(1, b × (0.5 + w/20))`. -/
def specFeatherRadius400 (w b : ℚ) : ℚ :=
  max 1 (b * (1/2 + w / 20))

/-- Amended specification alpha rule for the 400 px-reference compositor
(divisor 20), otherwise identical to `specOutlineAlpha`. -/
def specOutlineAlpha400 (d : WithTop ℚ) (w b : ℚ) : Option ℚ :=
  match d with
  | ⊤ => none
  | (dq : ℚ) =>
    if dq = 0 then none
    else if w + specFeatherRadius400 w b < dq then none
    else if w < dq then some (1 - smoothStep dq w (w + specFeatherRadius400 w b))
    else some 1

/-! ## Local heuristic mask extraction (`generateSoftMask`) — claim C4 -/

/-- One RGBA pixel (8-bit channels, as in `ImageData.data`). -/
structure RGBA where
  r : ℕ
  g : ℕ
  b : ℕ
  a : ℕ

/-- A decoded source image: dimensions plus row-major pixel access.  The source
addresses `data` by byte offset `4*i + channel`; we address by pixel index `i`. -/
structure SourceImage where
  width : ℕ
  height : ℕ
  px : ℕ → RGBA

/-- Pixel indices of the four corners sampled by `generateSoftMask` (source byte
offsets `0`, `(width-1)*4`, `width*(height-1)*4`, `(width*height-1)*4`, divided
by 4). -/
def cornerIdxs (img : SourceImage) : List ℕ :=
  [0, img.width - 1, img.width * (img.height - 1), img.width * img.height - 1]

/-- Sum of the alpha values at the four corners (`cornerAlphaSum`). -/
def cornerAlphaSum (img : SourceImage) : ℕ :=
  ((cornerIdxs img).map (fun i => (img.px i).a)).sum

/-- Pre-smoothing mask alpha computed by `generateSoftMask` (identical in both
source snapshots): if the mean corner alpha is `< 250` (`isTransparentBackground`),
threshold the source alpha at 50; otherwise color-key against the average corner
RGB with maximum-channel threshold 35. -/
def generateSoftMask_preAlpha (img : SourceImage) (i : ℕ) : ℕ :=
  if (cornerAlphaSum img : ℚ) / 4 < 250 then
    if 50 < (img.px i).a then 255 else 0
  else
    let br : ℚ := (((cornerIdxs img).map (fun j => (img.px j).r)).sum : ℚ) / 4
    let bg : ℚ := (((cornerIdxs img).map (fun j => (img.px j).g)).sum : ℚ) / 4
    let bb : ℚ := (((cornerIdxs img).map (fun j => (img.px j).b)).sum : ℚ) / 4
    let dist : ℚ :=
      max (max |((img.px i).r : ℚ) - br| |((img.px i).g : ℚ) - bg|) |((img.px i).b : ℚ) - bb|
    if dist < 35 then 0 else 255

/-- Mean corner alpha, as the specification words it. -/
def meanCornerAlpha (img : SourceImage) : ℚ :=
  (cornerAlphaSum img : ℚ) / 4

/-- Assumed background color (average of the four corner RGB values), as the
specification words it. -/
def specBackgroundColor (img : SourceImage) : ℚ × ℚ × ℚ :=
  ((((cornerIdxs img).map (fun j => (img.px j).r)).sum : ℚ) / 4,
   (((cornerIdxs img).map (fun j => (img.px j).g)).sum : ℚ) / 4,
   (((cornerIdxs img).map (fun j => (img.px j).b)).sum : ℚ) / 4)

/-- Maximum per-channel absolute difference of pixel `i` from the assumed
background color, as the specification words it. -/
def specMaxChannelDiff (img : SourceImage) (i : ℕ) : ℚ :=
  max (max |((img.px i).r : ℚ) - (specBackgroundColor img).1|
          |((img.px i).g : ℚ) - (specBackgroundColor img).2.1|)
      |((img.px i).b : ℚ) - (specBackgroundColor img).2.2|

/-! ## Persisted-parameter merge (`mergeParams`) — claim C6 -/

/-- JSON-like values, modelling what `JSON.parse` can produce for a persisted
parameter document. -/
inductive JVal where
  | null : JVal
  | bool : Bool → JVal
  | num : ℚ → JVal
  | str : String → JVal
  | arr : List JVal → JVal
  | obj : List (String × JVal) → JVal

/-- Association-list lookup of a JS object key (`target[key]`). -/
def lookupKey : List (String × JVal) → String → Option JVal
  | [], _ => none
  | e :: o, k => if e.1 = k then some e.2 else lookupKey o k

/-- JS property assignment `output[key] = v`: replace the value at an existing
key slot in place, else append the key. -/
def setKey : List (String × JVal) → String → JVal → List (String × JVal)
  | [], k, v => [(k, v)]
  | e :: o, k, v => if e.1 = k then (k, v) :: o else e :: setKey o k v

/-- JS object spread `{...t, ...s}`: one-level shallow merge, source keys
overwriting target keys. -/
def shallowMergeObj (t s : List (String × JVal)) : List (String × JVal) :=
  s.foldl (fun acc e => setKey acc e.1 e.2) t

/-- One iteration of the `for (const key in source)` loop of `mergeParams`:
arrays overwrite; objects shallow-merge when the *target* value at the key is a
non-array object, else overwrite; all remaining (scalar) values overwrite. -/
def mergeStep (target : List (String × JVal)) (out : List (String × JVal))
    (e : String × JVal) : List (String × JVal) :=
  match e.2 with
  | .arr xs => setKey out e.1 (.arr xs)
  | .obj sv =>
    match lookupKey target e.1 with
    | some (.obj tv) => setKey out e.1 (.obj (shallowMergeObj tv sv))
    | _ => setKey out e.1 (.obj sv)
  | v => setKey out e.1 v

/-- Shallow embedding of `mergeParams` (App module): start from a copy of the
target and fold the source's keys over it. -/
def mergeParams (target source : List (String × JVal)) : List (String × JVal) :=
  source.foldl (mergeStep target) target

/-! ## Gradient construction (`createGradient`) — claim C7 -/

/-- The gradient object a renderer context builds: shape parameters plus the
ordered list of `addColorStop` submissions. -/
structure GradientSpec where
  isRadial : Bool
  p0 : ℚ × ℚ
  p1 : ℚ × ℚ
  r0 : ℚ
  r1 : ℚ
  stops : List GradientStop
  deriving DecidableEq

/-- Shallow embedding of `createGradient`: radial gradients are centered with
outer radius `max(width, height)/2`, linear gradients run from `(0,0)` to
`(width, height)`; in both cases the stops are sorted ascending by position
before submission. -/
def createGradient (width height : ℚ) (stops : List GradientStop)
    (radial : Bool) : GradientSpec :=
  if radial then
    { isRadial := true, p0 := (width / 2, height / 2), p1 := (width / 2, height / 2),
      r0 := 0, r1 := max width height / 2, stops := sortStops stops }
  else
    { isRadial := false, p0 := (0, 0), p1 := (width, height),
      r0 := 0, r1 := 0, stops := sortStops stops }

/-- Color the underlying gradient API resolves at an exactly-hit position `p`
under last-write-wins: the color of the last submitted stop whose position is
`p`. -/
def resolvedStopColor (calls : List GradientStop) (p : ℚ) : Option String :=
  ((calls.filter (fun x => decide (x.position = p))).getLast?).map GradientStop.color

/-! ## Mask bounding-box center (`createSimplifiedMask`) — claim C5 -/

structure BBoxState where
  minX : ℕ
  maxX : ℕ
  minY : ℕ
  maxY : ℕ
  hasPixels : Bool
  deriving DecidableEq, Repr

/-- Initial accumulator: `minX = physicalW`, `maxX = 0`, `minY = physicalH`,
`maxY = 0`, `hasPixels = false`. -/
def bboxInit (physicalW physicalH : ℕ) : BBoxState :=
  ⟨physicalW, 0, physicalH, 0, false⟩

/-- One iteration of the scan: pixels with alpha &gt; 20 extend the bounding box
(`x = i % physicalW`, `y = i / physicalW`) and set `hasPixels`. -/
def bboxStep (physicalW : ℕ) (alpha : ℕ → ℕ) (st : BBoxState) (i : ℕ) : BBoxState :=
  if 20 < alpha i then
    { minX := if i % physicalW < st.minX then i % physicalW else st.minX
      maxX := if st.maxX < i % physicalW then i % physicalW else st.maxX
      minY := if i / physicalW < st.minY then i / physicalW else st.minY
      maxY := if st.maxY < i / physicalW then i / physicalW else st.maxY
      hasPixels := true }
  else st

/-- The full scan over all pixels of the physical-resolution mask buffer. -/
def bboxScan (physicalW physicalH : ℕ) (alpha : ℕ → ℕ) : BBoxState :=
  (List.range (physicalW * physicalH)).foldl (bboxStep physicalW alpha)
    (bboxInit physicalW physicalH)

/-- Center computation of `createSimplifiedMask` (scaled-convention snapshot):
physical buffer dimensions are `ceil(logical × scale)`; with foreground pixels
the center is the bounding-box midpoint scaled back to logical coordinates,
otherwise the canvas midpoint. -/
def createSimplifiedMask_center (logicalW logicalH scale : ℚ) (alpha : ℕ → ℕ) : ℚ × ℚ :=
  let physicalW := ⌈logicalW * scale⌉₊
  let physicalH := ⌈logicalH * scale⌉₊
  let st := bboxScan physicalW physicalH alpha
  if st.hasPixels then
    (((st.minX : ℚ) + st.maxX) / 2 / scale, ((st.minY : ℚ) + st.maxY) / 2 / scale)
  else
    (logicalW / 2, logicalH / 2)

/-! ## Mask acquisition error handling (`removeBackgroundSD3`, `generateSoftMask`) — claim C8 -/

/-- The subset of a `fetch` `Response` the source inspects. -/
structure SD3Response where
  ok : Bool
  status : ℕ

/-- Environment of one `removeBackgroundSD3` call: the outcome of each awaited
browser primitive.  `Except.error` models a rejected promise (network failure,
blob read failure, decode failure); blobs and bitmaps are abstract tokens. -/
structure SD3Env where
  fetchResult : Except String SD3Response
  blobResult : Except String ℕ
  decodeResult : ℕ → Except String ℕ

/-- The `try` block of `removeBackgroundSD3`: await `fetch`; on a non-ok
(non-2xx, e.g. auth-failure) response log and return `null`; otherwise await
`response.blob()` and `createImageBitmap(blob)`. -/
def removeBackgroundSD3_body (env : SD3Env) : Except String (Option ℕ) := do
  let resp ← env.fetchResult
  if resp.ok then
    let blob ← env.blobResult
    let bmp ← env.decodeResult blob
    return some bmp
  else
    return none

/-- Shallow embedding of `removeBackgroundSD3`: the whole body is wrapped in
`try { … } catch { return null }`, so every rejection becomes `null`. -/
def removeBackgroundSD3 (env : SD3Env) : Option ℕ :=
  match removeBackgroundSD3_body env with
  | .ok r => r
  | .error _ => none

/-- Shallow embedding of the decode boundary of `generateSoftMask`:
`img.onerror` resolves the promise with `null`; on successful decode the
heuristic pipeline runs and the promise resolves with its bitmap. -/
def generateSoftMask_decodeBoundary (decoded : Option ℕ) (pipeline : ℕ → ℕ) : Option ℕ :=
  match decoded with
  | none => none
  | some img => some (pipeline img)

/-! ## Chamfer distance field (`computeDistanceField`) — claim C2 -/

/-- Chamfer axis weight of `computeDistanceField` (`w1 = 1.0`). -/
def w1 : ℚ := 1

/-- Chamfer diagonal weight of `computeDistanceField` (`w2 = 1.41421356`). -/
def w2 : ℚ := 141421356 / 100000000

/-- Seed of the distance field: 0 at every pixel with alpha over 128, `Infinity`
(modelled as `⊤`) elsewhere. -/
def seedDist (alpha : ℕ → ℕ) (i : ℕ) : WithTop ℚ :=
  if 128 < alpha i then 0 else ⊤

/-- Candidate relaxation values of the forward pass at `idx` (in source order:
left, upper-left, up, upper-right), guarded exactly as the source guards them. -/
def fwdCandidates (W : ℕ) (d : ℕ → WithTop ℚ) (idx : ℕ) : List (WithTop ℚ) :=
  (if 0 < idx % W then [d (idx - 1) + (w1 : ℚ)] else []) ++
  (if 0 < idx % W ∧ 0 < idx / W then [d (idx - W - 1) + (w2 : ℚ)] else []) ++
  (if 0 < idx / W then [d (idx - W) + (w1 : ℚ)] else []) ++
  (if idx % W < W - 1 ∧ 0 < idx / W then [d (idx - W + 1) + (w2 : ℚ)] else [])

/-- Candidate relaxation values of the backward pass at `idx` (right,
lower-right, down, lower-left). -/
def bwdCandidates (W H : ℕ) (d : ℕ → WithTop ℚ) (idx : ℕ) : List (WithTop ℚ) :=
  (if idx % W < W - 1 then [d (idx + 1) + (w1 : ℚ)] else []) ++
  (if idx % W < W - 1 ∧ idx / W < H - 1 then [d (idx + W + 1) + (w2 : ℚ)] else []) ++
  (if idx / W < H - 1 then [d (idx + W) + (w1 : ℚ)] else []) ++
  (if 0 < idx % W ∧ idx / W < H - 1 then [d (idx + W - 1) + (w2 : ℚ)] else [])

/-- `minD` accumulation of one forward-pass iteration. -/
def relaxFwd (W : ℕ) (d : ℕ → WithTop ℚ) (idx : ℕ) : WithTop ℚ :=
  (fwdCandidates W d idx).foldl min (d idx)

/-- `minD` accumulation of one backward-pass iteration. -/
def relaxBwd (W H : ℕ) (d : ℕ → WithTop ℚ) (idx : ℕ) : WithTop ℚ :=
  (bwdCandidates W H d idx).foldl min (d idx)

/-- One forward-pass iteration: pixels at distance 0 are skipped (`continue`),
others store the relaxed minimum. -/
def stepFwd (W : ℕ) (d : ℕ → WithTop ℚ) (idx : ℕ) : ℕ → WithTop ℚ :=
  if d idx = 0 then d else Function.update d idx (relaxFwd W d idx)

/-- One backward-pass iteration. -/
def stepBwd (W H : ℕ) (d : ℕ → WithTop ℚ) (idx : ℕ) : ℕ → WithTop ℚ :=
  if d idx = 0 then d else Function.update d idx (relaxBwd W H d idx)

/-- Forward raster pass of the two-pass chamfer transform.  The source's double
loop (`y` outer ascending, `x` inner ascending) visits `idx = y*W + x` in
ascending order, i.e. `List.range (W*H)`. -/
def chamferPass1 (W H : ℕ) (alpha : ℕ → ℕ) : ℕ → WithTop ℚ :=
  (List.range (W * H)).foldl (stepFwd W) (seedDist alpha)

/-- Shallow embedding of `computeDistanceField`: seed, forward pass, then the
backward pass visiting indices in descending order. -/
def computeDistanceField (W H : ℕ) (alpha : ℕ → ℕ) : ℕ → WithTop ℚ :=
  (List.range (W * H)).reverse.foldl (stepBwd W H) (chamferPass1 W H alpha)

/-- Invariant of the relaxation passes: foreground pixels stay at distance 0,
background pixels never drop below 1 (the smallest edge weight). -/
def distInv (alpha : ℕ → ℕ) (d : ℕ → WithTop ℚ) : Prop :=
  (∀ j, 128 < alpha j → d j = 0) ∧ (∀ j, ¬ (128 < alpha j) → 1 ≤ d j)

/-- State of the forward pass just before index `p` is processed. -/
def pass1Prefix (W : ℕ) (alpha : ℕ → ℕ) (p : ℕ) : ℕ → WithTop ℚ :=
  (List.range p).foldl (stepFwd W) (seedDist alpha)

/-- State of the backward pass just before index `p` is processed. -/
def pass2Prefix (W H : ℕ) (alpha : ℕ → ℕ) (p : ℕ) : ℕ → WithTop ℚ :=
  (List.range' (p + 1) (W * H - p - 1)).reverse.foldl (stepBwd W H)
    (chamferPass1 W H alpha)

/-- Strengthened invariant for the diagonal-step case: the global invariant plus
a `w2` lower bound at the pixel `p` of interest. -/
def diagInv (alpha : ℕ → ℕ) (p : ℕ) (d : ℕ → WithTop ℚ) : Prop :=
  distInv alpha d ∧ ((w2 : ℚ) : WithTop ℚ) ≤ d p

/-- Vertical-boundary test mask: the whole left column (x = 0) is foreground. -/
def leftColMask (W : ℕ) (i : ℕ) : ℕ :=
  if i % W = 0 then 255 else 0

/-- Lower-bound invariant for the left-column mask: every pixel's value is at
least its x-coordinate. -/
def colLB (W : ℕ) (d : ℕ → WithTop ℚ) : Prop :=
  ∀ j, (((j % W : ℕ) : ℚ) : WithTop ℚ) ≤ d j

/-! ## Accessory stroke layer (`renderAccessoryLayer`) — claim C9 -/

/-- A canvas's alpha channel: byte value at integer pixel coordinates (0 outside
the canvas). -/
def Grid : Type := ℤ × ℤ → ℕ

/-- Byte store with clamping (JS `Uint8ClampedArray` assignment; rounding
modelled as round-half-up). -/
def byteRound (q : ℚ) : ℕ :=
  (max 0 (min 255 (round q))).toNat

/-- Silhouette stroke layer configuration (`SilhouetteLayerParams` of the
source's types module). -/
structure SilhouetteLayerParams where
  enabled : Bool
  strokeWidth : ℚ
  strokeWidthMid : ℚ
  strokeWidthEnd : ℚ
  strokeScale : ℚ
  isGradientMode : Bool
  color : String
  gradientStops : List GradientStop
  blurStart : ℚ
  blurMid : ℚ
  blurEnd : ℚ
  opacity : ℚ
  xOffset : ℚ
  yOffset : ℚ

/-- Grid-level embedding of `createOutlineFromMask` (scaled-convention
snapshot).  The canvas Gaussian blur, whose pixel-exact output the browser does
not specify, is an opaque parameter `blurOp` (radius in physical pixels), per
the specification's abstract raster-operations contract; everything else —
clamp-to-edge padding, the chamfer distance field, the per-pixel width/blur
interpolation and alpha rule, the choked inner cutout (blur, threshold at 220,
destination-out erase) and the unpad — is computed concretely. -/
def createOutlineFromMask (blurOp : ℚ → Grid → Grid) (mask : Grid)
    (logicalW logicalH scale : ℚ)
    (strokeWidthStart strokeWidthMid strokeWidthEnd strokeScale : ℚ)
    (blurStart blurMid blurEnd : ℚ) : Grid :=
  let physicalW : ℕ := ⌈logicalW * scale⌉₊
  let physicalH : ℕ := ⌈logicalH * scale⌉₊
  let effectiveStart := strokeWidthStart * strokeScale
  let effectiveMid := strokeWidthMid * strokeScale
  let effectiveEnd := strokeWidthEnd * strokeScale
  if effectiveStart ≤ 0 ∧ effectiveMid ≤ 0 ∧ effectiveEnd ≤ 0 then (fun _ => 0)
  else
    let maxStroke := max effectiveStart (max effectiveMid effectiveEnd)
    let maxBlurRaw := max blurStart (max blurMid blurEnd)
    let maxAdaptiveFeather :=
      if 0 < maxBlurRaw then maxBlurRaw * (1/2 + maxStroke / 54) else 0
    let paddingLogical : ℕ := ⌈maxStroke + maxAdaptiveFeather + 20⌉₊
    let paddingPhysical : ℕ := ⌈(paddingLogical : ℚ) * scale⌉₊
    let paddedW := physicalW + 2 * paddingPhysical
    let paddedH := physicalH + 2 * paddingPhysical
    let paddedMaskSharp : Grid := fun q =>
      if 0 ≤ q.1 ∧ q.1 < (paddedW : ℤ) ∧ 0 ≤ q.2 ∧ q.2 < (paddedH : ℤ) then
        let px := q.1 - (paddingPhysical : ℤ)
        let py := q.2 - (paddingPhysical : ℤ)
        if 0 ≤ px ∧ px < (physicalW : ℤ) ∧ 0 ≤ py ∧ py < (physicalH : ℤ) then
          mask (px, py)
        else if 0 ≤ px ∧ px < (physicalW : ℤ) ∧ py < 0 then mask (px, 0)
        else if 0 ≤ px ∧ px < (physicalW : ℤ) ∧ (physicalH : ℤ) ≤ py then
          mask (px, (physicalH : ℤ) - 1)
        else if px < 0 ∧ 0 ≤ py ∧ py < (physicalH : ℤ) then mask (0, py)
        else if (physicalW : ℤ) ≤ px ∧ 0 ≤ py ∧ py < (physicalH : ℤ) then
          mask ((physicalW : ℤ) - 1, py)
        else 0
      else 0
    let paddedMaskBlurred := blurOp (1/2 * scale) paddedMaskSharp
    let distanceField := computeDistanceField paddedW paddedH
      (fun i => paddedMaskBlurred ((i % paddedW : ℕ), (i / paddedW : ℕ)))
    let outputImage : Grid := fun q =>
      if 0 ≤ q.1 ∧ q.1 < (paddedW : ℤ) ∧ 0 ≤ q.2 ∧ q.2 < (paddedH : ℤ) then
        let i : ℕ := q.2.toNat * paddedW + q.1.toNat
        let originalXPhysical : ℚ := (q.1 : ℚ) - (paddingPhysical : ℚ)
        let t := tParam originalXPhysical (physicalW : ℚ)
        let currentTargetWidth := interp3 effectiveStart effectiveMid effectiveEnd t
        let currentBlur := interp3 blurStart blurMid blurEnd t
        match outlinePixelAlpha (WithTop.map (fun dq => dq / scale) (distanceField i))
            currentTargetWidth currentBlur with
        | none => 0
        | some a => byteRound (a * 255)
      else 0
    let blurredChoke := blurOp (6 * scale) paddedMaskSharp
    let chokeThresholded : Grid := fun q => if 220 < blurredChoke q then 255 else 0
    let afterCutout : Grid := fun q =>
      byteRound ((outputImage q : ℚ) * (1 - (chokeThresholded q : ℚ) / 255))
    fun q =>
      if 0 ≤ q.1 ∧ q.1 < (physicalW : ℤ) ∧ 0 ≤ q.2 ∧ q.2 < (physicalH : ℤ) then
        afterCutout (q.1 + (paddingPhysical : ℤ), q.2 + (paddingPhysical : ℤ))
      else 0

/-- Grid-level embedding of `renderAccessoryLayer` (scaled-convention snapshot):
a freshly created transparent layer is returned untouched when the layer is
disabled; otherwise the outline is built (`strokeWidthMid || strokeWidth` and
`strokeScale || 1` JS-truthiness fallbacks included), translated by the
configured offset, and `source-in` filled with the configured paint, whose
rasterized alpha is the opaque parameter `fillPaintAlpha`. -/
def renderAccessoryLayer (blurOp : ℚ → Grid → Grid) (fillPaintAlpha : ℤ × ℤ → ℕ)
    (logicalW logicalH scale : ℚ) (masterMask : Grid) (center : ℚ × ℚ)
    (config : SilhouetteLayerParams) : Grid :=
  if config.enabled = false then (fun _ => 0)
  else
    let outlineMask := createOutlineFromMask blurOp masterMask logicalW logicalH scale
      config.strokeWidth
      (if config.strokeWidthMid = 0 then config.strokeWidth else config.strokeWidthMid)
      config.strokeWidthEnd
      (if config.strokeScale = 0 then 1 else config.strokeScale)
      config.blurStart config.blurMid config.blurEnd
    fun q =>
      let shifted := outlineMask
        (q.1 - ⌊config.xOffset * scale⌋, q.2 - ⌊config.yOffset * scale⌋)
      byteRound ((shifted : ℚ) * (fillPaintAlpha q : ℚ) / 255)

/-! ## Theorems -/

/-! ### Claim C1 -/

lemma outlinePixelAlpha_coe (dq w b : ℚ) :
    outlinePixelAlpha (dq : WithTop ℚ) w b =
      (if dq = 0 then none
       else
        let adaptiveFeather := if 0 < b then b * (1/2 + w / 54) else 0
        let featherRange := max 1 adaptiveFeather
        if w + featherRange < dq then none
        else if w < dq then some (1 - smoothStep dq w (w + featherRange))
        else some 1) := rfl

lemma outlinePixelAlpha400_coe (dq w b : ℚ) :
    outlinePixelAlpha400 (dq : WithTop ℚ) w b =
      (if dq = 0 then none
       else
        let adaptiveFeather := if 0 < b then b * (1/2 + w / 20) else 0
        let featherRange := max 1 adaptiveFeather
        if w + featherRange < dq then none
        else if w < dq then some (1 - smoothStep dq w (w + featherRange))
        else some 1) := rfl

/-- For a non-negative blur, the guarded adaptive feather of the source
(`currentBlur > 0 ? currentBlur * (0.5 + w/54) : 0`, then `max(minFeatherRange, ·)`)
coincides with the specification's closed formula `max(1, b (0.5 + w/54))`. -/
lemma featherRange_eq (w b : ℚ) (hb : 0 ≤ b) :
    max 1 (if 0 < b then b * (1/2 + w / 54) else 0) = specFeatherRadius w b := by
  rcases hb.lt_or_eq with h | h
  · rw [if_pos h, specFeatherRadius]
  · rw [if_neg (by rw [← h]; exact lt_irrefl 0), specFeatherRadius, ← h, zero_mul]

lemma featherRange400_eq (w b : ℚ) (hb : 0 ≤ b) :
    max 1 (if 0 < b then b * (1/2 + w / 20) else 0) = specFeatherRadius400 w b := by
  rcases hb.lt_or_eq with h | h
  · rw [if_pos h, specFeatherRadius400]
  · rw [if_neg (by rw [← h]; exact lt_irrefl 0), specFeatherRadius400, ← h, zero_mul]

/-- C1 (amended): in the scaled-convention stroke compositor the per-pixel rule is
exactly the specification's (feather `max(1, b(0.5 + w/54))`, opaque core on
`0 < d ≤ w`, smoothstep falloff on `(w, w+feather]`, transparent at `d = 0`,
`d = ∞`, and beyond `w+feather`); in the 400 px-reference compositor the same
holds with feather `max(1, b(0.5 + w/20))`. -/
theorem C1_outline_alpha_amended (w b : ℚ) (hb : 0 ≤ b) :
    (∀ d : WithTop ℚ, outlinePixelAlpha d w b = specOutlineAlpha d w b) ∧
    (∀ d : WithTop ℚ, outlinePixelAlpha400 d w b = specOutlineAlpha400 d w b) ∧
    outlinePixelAlpha ⊤ w b = none ∧
    outlinePixelAlpha ((0 : ℚ) : WithTop ℚ) w b = none ∧
    (∀ dq : ℚ, 0 < dq → dq ≤ w → outlinePixelAlpha (dq : WithTop ℚ) w b = some 1) ∧
    (∀ dq : ℚ, 0 < dq → w < dq → dq ≤ w + specFeatherRadius w b →
      outlinePixelAlpha (dq : WithTop ℚ) w b
        = some (1 - smoothStep dq w (w + specFeatherRadius w b))) ∧
    (∀ dq : ℚ, w + specFeatherRadius w b < dq →
      outlinePixelAlpha (dq : WithTop ℚ) w b = none) ∧
    (∀ dq : ℚ, 0 < dq → dq ≤ w → outlinePixelAlpha400 (dq : WithTop ℚ) w b = some 1) ∧
    (∀ dq : ℚ, 0 < dq → w < dq → dq ≤ w + specFeatherRadius400 w b →
      outlinePixelAlpha400 (dq : WithTop ℚ) w b
        = some (1 - smoothStep dq w (w + specFeatherRadius400 w b))) ∧
    (∀ dq : ℚ, w + specFeatherRadius400 w b < dq →
      outlinePixelAlpha400 (dq : WithTop ℚ) w b = none) := by
  have hspec : ∀ d : WithTop ℚ, outlinePixelAlpha d w b = specOutlineAlpha d w b := by
    intro d
    induction d using WithTop.recTopCoe with
    | top => rfl
    | coe dq =>
      rw [outlinePixelAlpha_coe]
      show (if dq = 0 then none
            else
              if w + max 1 (if 0 < b then b * (1/2 + w / 54) else 0) < dq then none
              else if w < dq then
                some (1 - smoothStep dq w (w + max 1 (if 0 < b then b * (1/2 + w / 54) else 0)))
              else some 1) = specOutlineAlpha (dq : WithTop ℚ) w b
      rw [featherRange_eq w b hb]
      rfl
  have hspec400 : ∀ d : WithTop ℚ, outlinePixelAlpha400 d w b = specOutlineAlpha400 d w b := by
    intro d
    induction d using WithTop.recTopCoe with
    | top => rfl
    | coe dq =>
      rw [outlinePixelAlpha400_coe]
      show (if dq = 0 then none
            else
              if w + max 1 (if 0 < b then b * (1/2 + w / 20) else 0) < dq then none
              else if w < dq then
                some (1 - smoothStep dq w (w + max 1 (if 0 < b then b * (1/2 + w / 20) else 0)))
              else some 1) = specOutlineAlpha400 (dq : WithTop ℚ) w b
      rw [featherRange400_eq w b hb]
      rfl
  have hfeather_pos : (0:ℚ) < specFeatherRadius w b :=
    lt_of_lt_of_le zero_lt_one (le_max_left 1 _)
  have hfeather400_pos : (0:ℚ) < specFeatherRadius400 w b :=
    lt_of_lt_of_le zero_lt_one (le_max_left 1 _)
  refine ⟨hspec, hspec400, rfl, by rw [hspec]; rfl, ?_, ?_, ?_, ?_, ?_, ?_⟩
  · intro dq h0 hw
    rw [hspec]
    show (if dq = 0 then none
          else if w + specFeatherRadius w b < dq then none
          else if w < dq then some (1 - smoothStep dq w (w + specFeatherRadius w b))
          else some 1) = some 1
    rw [if_neg h0.ne', if_neg (not_lt.mpr (hw.trans (le_add_of_nonneg_right hfeather_pos.le))),
      if_neg (not_lt.mpr hw)]
  · intro dq h0 hw hupper
    rw [hspec]
    show (if dq = 0 then none
          else if w + specFeatherRadius w b < dq then none
          else if w < dq then some (1 - smoothStep dq w (w + specFeatherRadius w b))
          else some 1) = _
    rw [if_neg h0.ne', if_neg (not_lt.mpr hupper), if_pos hw]
  · intro dq hbeyond
    rw [hspec]
    show (if dq = 0 then none
          else if w + specFeatherRadius w b < dq then none
          else if w < dq then some (1 - smoothStep dq w (w + specFeatherRadius w b))
          else some 1) = none
    rcases eq_or_ne dq 0 with h | h
    · rw [if_pos h]
    · rw [if_neg h, if_pos hbeyond]
  · intro dq h0 hw
    rw [hspec400]
    show (if dq = 0 then none
          else if w + specFeatherRadius400 w b < dq then none
          else if w < dq then some (1 - smoothStep dq w (w + specFeatherRadius400 w b))
          else some 1) = some 1
    rw [if_neg h0.ne', if_neg (not_lt.mpr (hw.trans (le_add_of_nonneg_right hfeather400_pos.le))),
      if_neg (not_lt.mpr hw)]
  · intro dq h0 hw hupper
    rw [hspec400]
    show (if dq = 0 then none
          else if w + specFeatherRadius400 w b < dq then none
          else if w < dq then some (1 - smoothStep dq w (w + specFeatherRadius400 w b))
          else some 1) = _
    rw [if_neg h0.ne', if_neg (not_lt.mpr hupper), if_pos hw]
  · intro dq hbeyond
    rw [hspec400]
    show (if dq = 0 then none
          else if w + specFeatherRadius400 w b < dq then none
          else if w < dq then some (1 - smoothStep dq w (w + specFeatherRadius400 w b))
          else some 1) = none
    rcases eq_or_ne dq 0 with h | h
    · rw [if_pos h]
    · rw [if_neg h, if_pos hbeyond]

/-- Witness for C1's amended theorem at blur 1, width 4: a pixel at distance 2 is
in the opaque core, a pixel at distance 20 is transparent. -/
theorem C1_outline_alpha_amended_witness :
    (0:ℚ) ≤ 1 ∧
    outlinePixelAlpha ((2 : ℚ) : WithTop ℚ) 4 1 = some 1 ∧
    outlinePixelAlpha400 ((20 : ℚ) : WithTop ℚ) 4 1 = none := by
  refine ⟨by norm_num, ?_, ?_⟩
  · exact (C1_outline_alpha_amended 4 1 (by norm_num)).2.2.2.2.1 2 (by norm_num) (by norm_num)
  · refine (C1_outline_alpha_amended 4 1 (by norm_num)).2.2.2.2.2.2.2.2.2 20 ?_
    show (4:ℚ) + specFeatherRadius400 4 1 < 20
    rw [specFeatherRadius400]
    norm_num

/-- Counterexample to C1 as frozen: at interpolated width `w = 27` and blur
`b = 1`, the claimed feather `max(1, b(0.5 + w/54)) = 1`, so the claim predicts a
pixel at distance `28.5 > 28` is left fully transparent; the 400 px-reference
compositor (the cited lines 1409–1424) uses divisor 20, giving feather `1.85`,
and writes alpha `4753/50653` there. -/
theorem C1_outline_alpha_counterexample :
    specFeatherRadius 27 1 = 1 ∧
    specOutlineAlpha ((57/2 : ℚ) : WithTop ℚ) 27 1 = none ∧
    outlinePixelAlpha400 ((57/2 : ℚ) : WithTop ℚ) 27 1 = some (4753/50653) := by
  refine ⟨by rw [specFeatherRadius]; norm_num,
    by norm_num [specOutlineAlpha, specFeatherRadius],
    by norm_num [outlinePixelAlpha400, smoothStep]⟩

/-- C3: in the stroke compositor, the horizontal parameter is clamped to `[0,1]`;
the effective target width at `t = 0, 1/2, 1` equals the start/mid/end control
width times `strokeScale`; on each half the interpolation is the affine
combination of the bracketing control points (so e.g. `t = 1/4` gives the average
of start and mid); and the blur parameter is interpolated by the identical
three-point scheme over its own control values. -/
theorem C3_stroke_interpolation :
    (∀ originalX width : ℚ, 0 ≤ tParam originalX width ∧ tParam originalX width ≤ 1) ∧
    (∀ ws wm we s : ℚ,
      interp3 (ws * s) (wm * s) (we * s) 0 = ws * s ∧
      interp3 (ws * s) (wm * s) (we * s) (1/2) = wm * s ∧
      interp3 (ws * s) (wm * s) (we * s) 1 = we * s) ∧
    (∀ vs vm ve t : ℚ, t < 1/2 →
      interp3 vs vm ve t = (1 - 2 * t) * vs + (2 * t) * vm) ∧
    (∀ vs vm ve t : ℚ, 1/2 ≤ t →
      interp3 vs vm ve t = (1 - (2 * t - 1)) * vm + (2 * t - 1) * ve) ∧
    (∀ ws wm we s : ℚ,
      interp3 (ws * s) (wm * s) (we * s) (1/4) = (ws * s + wm * s) / 2 ∧
      interp3 (ws * s) (wm * s) (we * s) (3/4) = (wm * s + we * s) / 2) ∧
    (∀ bs bm be : ℚ,
      interp3 bs bm be 0 = bs ∧ interp3 bs bm be (1/2) = bm ∧ interp3 bs bm be 1 = be) := by
  refine ⟨?_, ?_, ?_, ?_, ?_, ?_⟩
  · intro ox w
    constructor
    · exact le_max_left 0 _
    · exact max_le (by norm_num) (min_le_left 1 _)
  · intro ws wm we s
    refine ⟨?_, ?_, ?_⟩
    · simp only [interp3, if_pos (by norm_num : (0:ℚ) < 1/2)]
      ring
    · simp only [interp3, if_neg (lt_irrefl (1/2 : ℚ))]
      ring
    · simp only [interp3, if_neg (by norm_num : ¬ ((1:ℚ) < 1/2))]
      ring
  · intro vs vm ve t ht
    simp only [interp3, if_pos ht]
    ring
  · intro vs vm ve t ht
    simp only [interp3, if_neg (not_lt.mpr ht)]
    ring
  · intro ws wm we s
    constructor
    · simp only [interp3, if_pos (by norm_num : (1/4:ℚ) < 1/2)]
      ring
    · simp only [interp3, if_neg (by norm_num : ¬ ((3/4:ℚ) < 1/2))]
      ring
  · intro bs bm be
    refine ⟨?_, ?_, ?_⟩
    · simp only [interp3, if_pos (by norm_num : (0:ℚ) < 1/2)]
      ring
    · simp only [interp3, if_neg (lt_irrefl (1/2 : ℚ))]
      ring
    · simp only [interp3, if_neg (by norm_num : ¬ ((1:ℚ) < 1/2))]
      ring

/-- C4: the mask extractor branches on the mean corner alpha.  When the mean is
`< 250`, the pre-smoothing mask alpha is 255 exactly when the source alpha
exceeds 50, else 0.  When the mean is `≥ 250`, it is 0 exactly when the maximum
per-channel absolute difference from the averaged corner background color is
`< 35`, else 255. -/
theorem C4_soft_mask_thresholds (img : SourceImage) (i : ℕ) :
    (meanCornerAlpha img < 250 →
      (generateSoftMask_preAlpha img i = if 50 < (img.px i).a then 255 else 0) ∧
      (generateSoftMask_preAlpha img i = 255 ↔ 50 < (img.px i).a)) ∧
    (250 ≤ meanCornerAlpha img →
      (generateSoftMask_preAlpha img i = if specMaxChannelDiff img i < 35 then 0 else 255) ∧
      (generateSoftMask_preAlpha img i = 0 ↔ specMaxChannelDiff img i < 35)) := by
  constructor
  · intro hmean
    have he : generateSoftMask_preAlpha img i = if 50 < (img.px i).a then 255 else 0 := by
      rw [generateSoftMask_preAlpha,
        if_pos (show (cornerAlphaSum img : ℚ) / 4 < 250 from hmean)]
    refine ⟨he, ?_⟩
    rw [he]
    by_cases h : 50 < (img.px i).a
    · simp [h]
    · simp [h]
  · intro hmean
    have he : generateSoftMask_preAlpha img i =
        if specMaxChannelDiff img i < 35 then 0 else 255 := by
      rw [generateSoftMask_preAlpha,
        if_neg (not_lt.mpr (show (250:ℚ) ≤ (cornerAlphaSum img : ℚ) / 4 from hmean))]
      rfl
    refine ⟨he, ?_⟩
    rw [he]
    by_cases h : specMaxChannelDiff img i < 35
    · simp [h]
    · simp [h]

/-- Witness for C4: a 2×2 image with fully opaque corners takes the color-keying
branch; its pixel 0 (equal to the background average) is judged background; a
2×2 image with transparent corners takes the alpha-threshold branch. -/
theorem C4_soft_mask_thresholds_witness :
    (250 ≤ meanCornerAlpha ⟨2, 2, fun _ => ⟨10, 20, 30, 255⟩⟩ ∧
      generateSoftMask_preAlpha ⟨2, 2, fun _ => ⟨10, 20, 30, 255⟩⟩ 0 = 0) ∧
    (meanCornerAlpha ⟨2, 2, fun _ => ⟨10, 20, 30, 0⟩⟩ < 250 ∧
      generateSoftMask_preAlpha ⟨2, 2, fun _ => ⟨10, 20, 30, 0⟩⟩ 0 = 0) := by
  constructor
  · have hmean : (250:ℚ) ≤ meanCornerAlpha ⟨2, 2, fun _ => ⟨10, 20, 30, 255⟩⟩ := by
      norm_num [meanCornerAlpha, cornerAlphaSum, cornerIdxs]
    refine ⟨hmean, ?_⟩
    rw [((C4_soft_mask_thresholds ⟨2, 2, fun _ => ⟨10, 20, 30, 255⟩⟩ 0).2 hmean).1]
    norm_num [specMaxChannelDiff, specBackgroundColor, cornerIdxs]
  · have hmean : meanCornerAlpha ⟨2, 2, fun _ => ⟨10, 20, 30, 0⟩⟩ < 250 := by
      norm_num [meanCornerAlpha, cornerAlphaSum, cornerIdxs]
    refine ⟨hmean, ?_⟩
    rw [((C4_soft_mask_thresholds ⟨2, 2, fun _ => ⟨10, 20, 30, 0⟩⟩ 0).1 hmean).1]
    norm_num

lemma lookupKey_setKey_self (o : List (String × JVal)) (k : String) (v : JVal) :
    lookupKey (setKey o k v) k = some v := by
  induction o with
  | nil => simp [setKey, lookupKey]
  | cons e o ih =>
    rw [setKey]
    by_cases h : e.1 = k
    · rw [if_pos h, lookupKey, if_pos rfl]
    · rw [if_neg h, lookupKey, if_neg h, ih]

lemma lookupKey_setKey_ne (o : List (String × JVal)) (k k' : String) (v : JVal)
    (h : k ≠ k') : lookupKey (setKey o k v) k' = lookupKey o k' := by
  induction o with
  | nil => simp [setKey, lookupKey, h]
  | cons e o ih =>
    rw [setKey]
    by_cases he : e.1 = k
    · rw [if_pos he, lookupKey, if_neg h, lookupKey, if_neg (by rw [he]; exact h)]
    · rw [if_neg he, lookupKey, lookupKey, ih]

lemma lookupKey_mergeStep_ne (t out : List (String × JVal)) (e : String × JVal)
    (k : String) (h : e.1 ≠ k) : lookupKey (mergeStep t out e) k = lookupKey out k := by
  rcases e with ⟨ek, ev⟩
  cases ev with
  | arr xs => exact lookupKey_setKey_ne _ _ _ _ h
  | obj sv =>
    rw [mergeStep]
    rcases hlk : lookupKey t ek with _ | v
    · exact lookupKey_setKey_ne _ _ _ _ h
    · cases v <;> exact lookupKey_setKey_ne _ _ _ _ h
  | null => exact lookupKey_setKey_ne _ _ _ _ h
  | bool b => exact lookupKey_setKey_ne _ _ _ _ h
  | num q => exact lookupKey_setKey_ne _ _ _ _ h
  | str s => exact lookupKey_setKey_ne _ _ _ _ h

lemma lookupKey_foldl_mergeStep_ne (t : List (String × JVal)) (k : String) :
    ∀ (s out : List (String × JVal)), (∀ e ∈ s, e.1 ≠ k) →
      lookupKey (s.foldl (mergeStep t) out) k = lookupKey out k := by
  intro s
  induction s with
  | nil => intro out _; rfl
  | cons e s ih =>
    intro out hs
    rw [List.foldl_cons, ih _ (fun e' he' => hs e' (List.mem_cons_of_mem e he')),
      lookupKey_mergeStep_ne t out e k (hs e (List.mem_cons_self e s))]

lemma lookupKey_foldl_setKey_ne (k : String) :
    ∀ (s out : List (String × JVal)), (∀ e ∈ s, e.1 ≠ k) →
      lookupKey (s.foldl (fun acc e => setKey acc e.1 e.2) out) k = lookupKey out k := by
  intro s
  induction s with
  | nil => intro out _; rfl
  | cons e s ih =>
    intro out hs
    rw [List.foldl_cons, ih _ (fun e' he' => hs e' (List.mem_cons_of_mem e he')),
      lookupKey_setKey_ne _ _ _ _ (hs e (List.mem_cons_self e s))]

lemma keys_nodup_split {s1 s2 : List (String × JVal)} {k : String} {v : JVal}
    (h : ((s1 ++ (k, v) :: s2).map Prod.fst).Nodup) : ∀ e ∈ s2, e.1 ≠ k := by
  rw [List.map_append, List.map_cons, List.nodup_append] at h
  have hcons := h.2.1
  rw [List.nodup_cons] at hcons
  intro e he heq
  have hmem : e.1 ∈ s2.map Prod.fst := List.mem_map_of_mem Prod.fst he
  rw [heq] at hmem
  exact hcons.1 hmem

/-- Value stored by one merge step at its own key. -/
lemma lookupKey_mergeStep_self (t out : List (String × JVal)) (k : String) (v : JVal) :
    lookupKey (mergeStep t out (k, v)) k
      = some (match v with
              | .obj sv =>
                match lookupKey t k with
                | some (.obj tv) => JVal.obj (shallowMergeObj tv sv)
                | _ => JVal.obj sv
              | v => v) := by
  cases v with
  | arr xs => exact lookupKey_setKey_self _ _ _
  | obj sv =>
    show lookupKey (mergeStep t out (k, JVal.obj sv)) k = _
    rw [mergeStep]
    rcases hlk : lookupKey t k with _ | w
    · simp only [hlk]
      exact lookupKey_setKey_self _ _ _
    · cases w <;> simp only [hlk] <;> exact lookupKey_setKey_self _ _ _
  | null => exact lookupKey_setKey_self _ _ _
  | bool b => exact lookupKey_setKey_self _ _ _
  | num q => exact lookupKey_setKey_self _ _ _
  | str s => exact lookupKey_setKey_self _ _ _

/-- C6: the persisted-parameter merge law.  `merge(defaults, {})` equals
`defaults`; a key of the defaults absent from the partial document is preserved;
a scalar or array key of the partial document overwrites; and a key that is a
nested object in both produces the one-level shallow merge (source fields over
default fields). -/
theorem C6_merge_law (t s : List (String × JVal)) :
    mergeParams t [] = t ∧
    (∀ k, (∀ e ∈ s, e.1 ≠ k) → lookupKey (mergeParams t s) k = lookupKey t k) ∧
    ((s.map Prod.fst).Nodup → ∀ k v, (k, v) ∈ s → (∀ xs, v ≠ JVal.obj xs) →
      lookupKey (mergeParams t s) k = some v) ∧
    ((s.map Prod.fst).Nodup → ∀ k sv tv, (k, JVal.obj sv) ∈ s →
      lookupKey t k = some (JVal.obj tv) →
      lookupKey (mergeParams t s) k = some (JVal.obj (shallowMergeObj tv sv))) ∧
    (∀ tv sv : List (String × JVal), (sv.map Prod.fst).Nodup → ∀ j,
      ((∀ e ∈ sv, e.1 ≠ j) → lookupKey (shallowMergeObj tv sv) j = lookupKey tv j) ∧
      (∀ w, (j, w) ∈ sv → lookupKey (shallowMergeObj tv sv) j = some w)) := by
  refine ⟨rfl, ?_, ?_, ?_, ?_⟩
  · intro k hk
    exact lookupKey_foldl_mergeStep_ne t k s t hk
  · intro hnd k v hmem hv
    obtain ⟨s1, s2, rfl⟩ := List.append_of_mem hmem
    rw [mergeParams, List.foldl_append, List.foldl_cons,
      lookupKey_foldl_mergeStep_ne t k s2 _ (keys_nodup_split hnd),
      lookupKey_mergeStep_self]
    cases v with
    | obj sv => exact absurd rfl (hv sv)
    | arr xs => rfl
    | null => rfl
    | bool b => rfl
    | num q => rfl
    | str s => rfl
  · intro hnd k sv tv hmem ht
    obtain ⟨s1, s2, rfl⟩ := List.append_of_mem hmem
    rw [mergeParams, List.foldl_append, List.foldl_cons,
      lookupKey_foldl_mergeStep_ne t k s2 _ (keys_nodup_split hnd),
      lookupKey_mergeStep_self]
    simp only [ht]
  · intro tv sv hnd j
    constructor
    · intro hj
      exact lookupKey_foldl_setKey_ne j sv tv hj
    · intro w hw
      obtain ⟨v1, v2, rfl⟩ := List.append_of_mem hw
      rw [shallowMergeObj, List.foldl_append, List.foldl_cons,
        lookupKey_foldl_setKey_ne j v2 _ (keys_nodup_split hnd)]
      exact lookupKey_setKey_self _ _ _

/-! ### Claim C10 -/

/-- C10: `renderOrb` clamps the drawing opacity into `[0,1]` (the canvas
`globalAlpha` it sets equals `min(1, max(0, opacity))`), so a persisted orb with
out-of-range opacity still draws with a valid alpha: `0` at `opacity ≤ 0` and `1`
at `opacity ≥ 1`. -/
theorem C10_orb_opacity_clamped (lw lh : ℚ) (orb : Orb) :
    (renderOrb lw lh orb).globalAlpha = min 1 (max 0 orb.opacity) ∧
    0 ≤ (renderOrb lw lh orb).globalAlpha ∧
    (renderOrb lw lh orb).globalAlpha ≤ 1 ∧
    (orb.opacity ≤ 0 → (renderOrb lw lh orb).globalAlpha = 0) ∧
    (1 ≤ orb.opacity → (renderOrb lw lh orb).globalAlpha = 1) := by
  have hval : (renderOrb lw lh orb).globalAlpha = max 0 (min 1 orb.opacity) := rfl
  refine ⟨?_, ?_, ?_, ?_, ?_⟩
  · rw [hval, min_max_distrib_left]
    norm_num
  · rw [hval]; exact le_max_left 0 _
  · rw [hval]; exact max_le (by norm_num) (min_le_left 1 _)
  · intro h
    rw [hval, min_eq_right (h.trans zero_le_one), max_eq_left h]
  · intro h
    rw [hval, min_eq_left h, max_eq_right zero_le_one]

/-- Witness for C10: an orb with opacity `-1/2` draws at alpha `0`, one with
opacity `3/2` draws at alpha `1`. -/
theorem C10_orb_opacity_clamped_witness :
    (renderOrb 800 1000
      { id := "o1", name := "n", x := 0, y := 0, radiusX := 10, radiusY := 10,
        scale := none, rotation := 0, color := "#ffffff", stops := [],
        opacity := -(1/2), blur := 0, isRadial := false }).globalAlpha = 0 ∧
    (renderOrb 800 1000
      { id := "o2", name := "n", x := 0, y := 0, radiusX := 10, radiusY := 10,
        scale := none, rotation := 0, color := "#ffffff", stops := [],
        opacity := 3/2, blur := 0, isRadial := false }).globalAlpha = 1 := by
  constructor
  · exact (C10_orb_opacity_clamped 800 1000 _).2.2.2.1 (by norm_num)
  · exact (C10_orb_opacity_clamped 800 1000 _).2.2.2.2 (by norm_num)

lemma stopInsert_perm (s : GradientStop) (l : List GradientStop) :
    List.Perm (stopInsert s l) (s :: l) := by
  induction l with
  | nil => exact List.Perm.refl _
  | cons t ts ih =>
    rw [stopInsert]
    by_cases h : s.position ≤ t.position
    · rw [if_pos h]
    · rw [if_neg h]
      exact (ih.cons t).trans (List.Perm.swap s t ts)

lemma sortStops_perm (l : List GradientStop) : List.Perm (sortStops l) l := by
  induction l with
  | nil => exact List.Perm.refl _
  | cons s ss ih =>
    exact (stopInsert_perm s (sortStops ss)).trans (ih.cons s)

lemma stopInsert_sorted (s : GradientStop) (l : List GradientStop)
    (hl : List.Sorted (fun a b : GradientStop => a.position ≤ b.position) l) :
    List.Sorted (fun a b : GradientStop => a.position ≤ b.position) (stopInsert s l) := by
  induction l with
  | nil => simp [stopInsert]
  | cons t ts ih =>
    rw [List.sorted_cons] at hl
    rw [stopInsert]
    by_cases h : s.position ≤ t.position
    · rw [if_pos h, List.sorted_cons]
      refine ⟨?_, List.sorted_cons.mpr hl⟩
      intro b hb
      rcases List.mem_cons.mp hb with rfl | hb
      · exact h
      · exact h.trans (hl.1 b hb)
    · rw [if_neg h, List.sorted_cons]
      refine ⟨?_, ih hl.2⟩
      intro b hb
      rcases List.mem_cons.mp ((stopInsert_perm s ts).mem_iff.mp hb) with rfl | hb
      · exact (not_le.mp h).le
      · exact hl.1 b hb

lemma sortStops_sorted (l : List GradientStop) :
    List.Sorted (fun a b : GradientStop => a.position ≤ b.position) (sortStops l) := by
  induction l with
  | nil => simp [sortStops]
  | cons s ss ih => exact stopInsert_sorted s (sortStops ss) ih

lemma filter_stopInsert_pos (s : GradientStop) (l : List GradientStop) (p : ℚ)
    (hs : s.position = p)
    (hl : List.Sorted (fun a b : GradientStop => a.position ≤ b.position) l) :
    (stopInsert s l).filter (fun x => decide (x.position = p))
      = (s :: l).filter (fun x => decide (x.position = p)) := by
  induction l with
  | nil => rfl
  | cons t ts ih =>
    rw [List.sorted_cons] at hl
    by_cases h : s.position ≤ t.position
    · rw [stopInsert, if_pos h]
    · have htp : ¬ (t.position = p) := fun hc => h (le_of_eq (hs.trans hc.symm))
      have hL : (t :: stopInsert s ts).filter (fun x => decide (x.position = p))
          = s :: ts.filter (fun x => decide (x.position = p)) := by
        rw [List.filter_cons_of_neg (by simpa using htp), ih hl.2,
          List.filter_cons_of_pos (by simpa using hs)]
      have hR : (s :: t :: ts).filter (fun x => decide (x.position = p))
          = s :: ts.filter (fun x => decide (x.position = p)) := by
        rw [List.filter_cons_of_pos (by simpa using hs),
          List.filter_cons_of_neg (by simpa using htp)]
      rw [stopInsert, if_neg h, hL, hR]

lemma filter_stopInsert_neg (s : GradientStop) (l : List GradientStop) (p : ℚ)
    (hs : ¬ (s.position = p)) :
    (stopInsert s l).filter (fun x => decide (x.position = p))
      = l.filter (fun x => decide (x.position = p)) := by
  induction l with
  | nil =>
    rw [stopInsert, List.filter_cons_of_neg (by simpa using hs)]
  | cons t ts ih =>
    rw [stopInsert]
    by_cases h : s.position ≤ t.position
    · rw [if_pos h, List.filter_cons_of_neg (by simpa using hs)]
    · rw [if_neg h]
      by_cases htp : t.position = p
      · rw [List.filter_cons_of_pos (by simpa using htp),
          List.filter_cons_of_pos (by simpa using htp), ih]
      · rw [List.filter_cons_of_neg (by simpa using htp),
          List.filter_cons_of_neg (by simpa using htp), ih]

lemma filter_sortStops (l : List GradientStop) (p : ℚ) :
    (sortStops l).filter (fun x => decide (x.position = p))
      = l.filter (fun x => decide (x.position = p)) := by
  induction l with
  | nil => rfl
  | cons s ss ih =>
    show (stopInsert s (sortStops ss)).filter _ = _
    by_cases hs : s.position = p
    · rw [filter_stopInsert_pos s (sortStops ss) p hs (sortStops_sorted ss),
        List.filter_cons_of_pos (by simpa using hs), ih,
        List.filter_cons_of_pos (by simpa using hs)]
    · rw [filter_stopInsert_neg s (sortStops ss) p hs, ih,
        List.filter_cons_of_neg (by simpa using hs)]

lemma sortStops_eq_of_perm (l1 l2 : List GradientStop)
    (hperm : List.Perm l1 l2) (hnd : (l2.map GradientStop.position).Nodup) :
    sortStops l1 = sortStops l2 := by
  haveI : IsAntisymm GradientStop (fun a b => a.position < b.position) :=
    ⟨fun a b h1 h2 => absurd h2 (not_lt.mpr h1.le)⟩
  have hp1 : List.Perm (sortStops l1) (sortStops l2) :=
    ((sortStops_perm l1).trans hperm).trans (sortStops_perm l2).symm
  have hnd1 : ((sortStops l1).map GradientStop.position).Nodup :=
    ((((sortStops_perm l1).trans hperm).map GradientStop.position).nodup_iff).mpr hnd
  have hnd2 : ((sortStops l2).map GradientStop.position).Nodup :=
    (((sortStops_perm l2).map GradientStop.position).nodup_iff).mpr hnd
  have hstrict : ∀ m : List GradientStop,
      List.Sorted (fun a b : GradientStop => a.position ≤ b.position) m →
      (m.map GradientStop.position).Nodup →
      List.Sorted (fun a b : GradientStop => a.position < b.position) m := by
    intro m hm hmnd
    rw [List.Sorted] at hm ⊢
    rw [List.Nodup, List.pairwise_map] at hmnd
    exact (hm.and hmnd).imp (fun h => lt_of_le_of_ne h.1 h.2)
  exact List.eq_of_perm_of_sorted hp1
    (hstrict _ (sortStops_sorted l1) hnd1) (hstrict _ (sortStops_sorted l2) hnd2)

/-- C7: gradient construction is stop-order invariant.  The built gradient's
stop list is the ascending stable sort of the input; for inputs with pairwise
distinct positions any permutation of the stop list builds the identical
gradient; and at duplicate positions the resolved color (last-write-wins per the
gradient API) is preserved by the sort. -/
theorem C7_gradient_stop_sorting (width height : ℚ) (stops : List GradientStop)
    (radial : Bool) :
    (createGradient width height stops radial).stops = sortStops stops ∧
    List.Sorted (fun a b : GradientStop => a.position ≤ b.position) (sortStops stops) ∧
    List.Perm (sortStops stops) stops ∧
    ((stops.map GradientStop.position).Nodup → ∀ l2, List.Perm l2 stops →
      createGradient width height l2 radial = createGradient width height stops radial) ∧
    (∀ p, resolvedStopColor (sortStops stops) p = resolvedStopColor stops p) := by
  refine ⟨?_, sortStops_sorted stops, sortStops_perm stops, ?_, ?_⟩
  · cases radial <;> rfl
  · intro hnd l2 hperm
    have hsort : sortStops l2 = sortStops stops := sortStops_eq_of_perm l2 stops hperm hnd
    cases radial <;> simp only [createGradient, if_pos, if_neg, hsort]
  · intro p
    rw [resolvedStopColor, resolvedStopColor, filter_sortStops]

/-- Witness for C7: the two-stop list with positions `[1, 0]` builds the same
gradient as its reversal with positions `[0, 1]`, and with duplicate positions
`[0, 0]` the last submitted color wins both before and after sorting. -/
theorem C7_gradient_stop_sorting_witness :
    createGradient 400 500
      [⟨"s1", "#ffffff", 1⟩, ⟨"s2", "#000000", 0⟩] true
      = createGradient 400 500
          [⟨"s2", "#000000", 0⟩, ⟨"s1", "#ffffff", 1⟩] true ∧
    (createGradient 400 500 [⟨"s1", "#ffffff", 1⟩, ⟨"s2", "#000000", 0⟩] true).stops
      = [⟨"s2", "#000000", 0⟩, ⟨"s1", "#ffffff", 1⟩] ∧
    resolvedStopColor
      (sortStops [⟨"d1", "#111111", 0⟩, ⟨"d2", "#222222", 0⟩]) 0 = some "#222222" := by
  refine ⟨?_, ?_, ?_⟩
  · exact (C7_gradient_stop_sorting 400 500
      [⟨"s2", "#000000", 0⟩, ⟨"s1", "#ffffff", 1⟩] true).2.2.2.1
      (by decide) _ (List.Perm.swap _ _ _)
  · rw [(C7_gradient_stop_sorting 400 500
      [⟨"s1", "#ffffff", 1⟩, ⟨"s2", "#000000", 0⟩] true).1]
    decide
  · rw [(C7_gradient_stop_sorting 400 500
      [⟨"d1", "#111111", 0⟩, ⟨"d2", "#222222", 0⟩] true).2.2.2.2 0]
    decide

/-- Witness for C6: merging a two-key document over two-key defaults preserves
the untouched key, overwrites the scalar key, and shallow-merges the shared
nested-object key. -/
theorem C6_merge_law_witness :
    lookupKey (mergeParams
      [("a", JVal.num 1), ("c", JVal.obj [("x", JVal.num 1), ("y", JVal.num 2)])]
      [("b", JVal.num 5), ("c", JVal.obj [("y", JVal.num 9)])]) "a" = some (JVal.num 1) ∧
    lookupKey (mergeParams
      [("a", JVal.num 1), ("c", JVal.obj [("x", JVal.num 1), ("y", JVal.num 2)])]
      [("b", JVal.num 5), ("c", JVal.obj [("y", JVal.num 9)])]) "b" = some (JVal.num 5) ∧
    lookupKey (mergeParams
      [("a", JVal.num 1), ("c", JVal.obj [("x", JVal.num 1), ("y", JVal.num 2)])]
      [("b", JVal.num 5), ("c", JVal.obj [("y", JVal.num 9)])]) "c"
      = some (JVal.obj [("x", JVal.num 1), ("y", JVal.num 9)]) ∧
    mergeParams
      [("a", JVal.num 1), ("c", JVal.obj [("x", JVal.num 1), ("y", JVal.num 2)])] [] =
      [("a", JVal.num 1), ("c", JVal.obj [("x", JVal.num 1), ("y", JVal.num 2)])] := by
  refine ⟨?_, ?_, ?_, ?_⟩
  · rw [(C6_merge_law
      [("a", JVal.num 1), ("c", JVal.obj [("x", JVal.num 1), ("y", JVal.num 2)])]
      [("b", JVal.num 5), ("c", JVal.obj [("y", JVal.num 9)])]).2.1 "a"
      (by intro e he heq
          rcases List.mem_cons.mp he with rfl | he
          · exact absurd heq (by decide)
          · rcases List.mem_cons.mp he with rfl | he
            · exact absurd heq (by decide)
            · cases he)]
    rfl
  · exact (C6_merge_law
      [("a", JVal.num 1), ("c", JVal.obj [("x", JVal.num 1), ("y", JVal.num 2)])]
      [("b", JVal.num 5), ("c", JVal.obj [("y", JVal.num 9)])]).2.2.1 (by decide)
      "b" (JVal.num 5) (List.mem_cons_self _ _) (fun xs h => JVal.noConfusion h)
  · have h := (C6_merge_law
      [("a", JVal.num 1), ("c", JVal.obj [("x", JVal.num 1), ("y", JVal.num 2)])]
      [("b", JVal.num 5), ("c", JVal.obj [("y", JVal.num 9)])]).2.2.2.1 (by decide)
      "c" [("y", JVal.num 9)] [("x", JVal.num 1), ("y", JVal.num 2)]
      (List.mem_cons_of_mem _ (List.mem_cons_self _ _)) rfl
    rw [h]
    rfl
  · exact (C6_merge_law
      [("a", JVal.num 1), ("c", JVal.obj [("x", JVal.num 1), ("y", JVal.num 2)])] []).1

lemma bbox_inv (W H : ℕ) (alpha : ℕ → ℕ) (hW : 0 < W) :
    ∀ N : ℕ, N ≤ W * H →
      (((List.range N).foldl (bboxStep W alpha) (bboxInit W H)).hasPixels = false →
        (List.range N).foldl (bboxStep W alpha) (bboxInit W H) = bboxInit W H) ∧
      (((List.range N).foldl (bboxStep W alpha) (bboxInit W H)).hasPixels = true
        ↔ ∃ i, i < N ∧ 20 < alpha i) ∧
      (∀ i, i < N → 20 < alpha i →
        ((List.range N).foldl (bboxStep W alpha) (bboxInit W H)).minX ≤ i % W ∧
        i % W ≤ ((List.range N).foldl (bboxStep W alpha) (bboxInit W H)).maxX ∧
        ((List.range N).foldl (bboxStep W alpha) (bboxInit W H)).minY ≤ i / W ∧
        i / W ≤ ((List.range N).foldl (bboxStep W alpha) (bboxInit W H)).maxY) ∧
      (((List.range N).foldl (bboxStep W alpha) (bboxInit W H)).hasPixels = true →
        (∃ i, i < N ∧ 20 < alpha i ∧
          i % W = ((List.range N).foldl (bboxStep W alpha) (bboxInit W H)).minX) ∧
        (∃ i, i < N ∧ 20 < alpha i ∧
          i % W = ((List.range N).foldl (bboxStep W alpha) (bboxInit W H)).maxX) ∧
        (∃ i, i < N ∧ 20 < alpha i ∧
          i / W = ((List.range N).foldl (bboxStep W alpha) (bboxInit W H)).minY) ∧
        (∃ i, i < N ∧ 20 < alpha i ∧
          i / W = ((List.range N).foldl (bboxStep W alpha) (bboxInit W H)).maxY)) := by
  intro N
  induction N with
  | zero =>
    intro _
    refine ⟨fun _ => rfl, ?_, ?_, ?_⟩
    · constructor
      · intro h; cases h
      · rintro ⟨i, hi, _⟩; omega
    · intro i hi; omega
    · intro h; cases h
  | succ N ih =>
    intro hN
    have hN' : N ≤ W * H := Nat.le_of_succ_le hN
    obtain ⟨hempty, hiff, hbound, hattain⟩ := ih hN'
    rw [List.range_succ, List.foldl_append, List.foldl_cons, List.foldl_nil]
    set stN := (List.range N).foldl (bboxStep W alpha) (bboxInit W H) with hstN
    by_cases hfg : 20 < alpha N
    · -- pixel N is foreground: the step extends the box
      rw [bboxStep, if_pos hfg]
      have hxW : N % W < W := Nat.mod_lt N hW
      have hyH : N / W < H := Nat.div_lt_iff_lt_mul hW |>.mpr (by
        calc N < W * H := hN
        _ = H * W := Nat.mul_comm W H)
      refine ⟨?_, ?_, ?_, ?_⟩
      · intro h
        simp at h
      · constructor
        · intro _
          exact ⟨N, Nat.lt_succ_self N, hfg⟩
        · intro _
          rfl
      · intro i hi hfi
        rcases Nat.lt_succ_iff_lt_or_eq.mp hi with hi | rfl
        · obtain ⟨h1, h2, h3, h4⟩ := hbound i hi hfi
          refine ⟨?_, ?_, ?_, ?_⟩ <;> simp only
          · split
            · omega
            · exact h1
          · split
            · omega
            · exact h2
          · split
            · omega
            · exact h3
          · split
            · omega
            · exact h4
        · refine ⟨?_, ?_, ?_, ?_⟩ <;> simp only <;> split <;> omega
      · intro _
        rcases hHP : stN.hasPixels with _ | _
        · -- no earlier foreground pixel: the accumulator still holds the init values
          have hinit := hempty hHP
          refine ⟨⟨N, Nat.lt_succ_self N, hfg, ?_⟩, ⟨N, Nat.lt_succ_self N, hfg, ?_⟩,
            ⟨N, Nat.lt_succ_self N, hfg, ?_⟩, ⟨N, Nat.lt_succ_self N, hfg, ?_⟩⟩ <;>
            simp only [hinit, bboxInit]
          · rw [if_pos hxW]
          · split
            · rfl
            · exact Nat.eq_zero_of_not_pos (by assumption)
          · rw [if_pos hyH]
          · split
            · rfl
            · exact Nat.eq_zero_of_not_pos (by assumption)
        · obtain ⟨⟨i1, hi1, hf1, he1⟩, ⟨i2, hi2, hf2, he2⟩, ⟨i3, hi3, hf3, he3⟩,
            ⟨i4, hi4, hf4, he4⟩⟩ := hattain hHP
          refine ⟨?_, ?_, ?_, ?_⟩ <;> simp only
          · split
            · exact ⟨N, Nat.lt_succ_self N, hfg, rfl⟩
            · exact ⟨i1, Nat.lt_succ_of_lt hi1, hf1, he1⟩
          · split
            · exact ⟨N, Nat.lt_succ_self N, hfg, rfl⟩
            · exact ⟨i2, Nat.lt_succ_of_lt hi2, hf2, he2⟩
          · split
            · exact ⟨N, Nat.lt_succ_self N, hfg, rfl⟩
            · exact ⟨i3, Nat.lt_succ_of_lt hi3, hf3, he3⟩
          · split
            · exact ⟨N, Nat.lt_succ_self N, hfg, rfl⟩
            · exact ⟨i4, Nat.lt_succ_of_lt hi4, hf4, he4⟩
    · -- pixel N is background: the step is the identity
      rw [bboxStep, if_neg hfg]
      refine ⟨hempty, ?_, ?_, ?_⟩
      · rw [hiff]
        constructor
        · rintro ⟨i, hi, hf⟩
          exact ⟨i, Nat.lt_succ_of_lt hi, hf⟩
        · rintro ⟨i, hi, hf⟩
          rcases Nat.lt_succ_iff_lt_or_eq.mp hi with hi | rfl
          · exact ⟨i, hi, hf⟩
          · exact absurd hf hfg
      · intro i hi hfi
        rcases Nat.lt_succ_iff_lt_or_eq.mp hi with hi | rfl
        · exact hbound i hi hfi
        · exact absurd hfi hfg
      · intro hp
        obtain ⟨⟨i1, hi1, hf1, he1⟩, ⟨i2, hi2, hf2, he2⟩, ⟨i3, hi3, hf3, he3⟩,
          ⟨i4, hi4, hf4, he4⟩⟩ := hattain hp
        exact ⟨⟨i1, Nat.lt_succ_of_lt hi1, hf1, he1⟩, ⟨i2, Nat.lt_succ_of_lt hi2, hf2, he2⟩,
          ⟨i3, Nat.lt_succ_of_lt hi3, hf3, he3⟩, ⟨i4, Nat.lt_succ_of_lt hi4, hf4, he4⟩⟩

/-- C5: if some mask pixel has alpha over 20, the computed center is the midpoint
of the bounding box of all such pixels, converted back to logical coordinates,
and it lies within `[0, logicalW] × [0, logicalH]`; if no pixel qualifies, the
center is exactly the canvas midpoint. -/
theorem C5_mask_center (logicalW logicalH scale : ℚ) (alpha : ℕ → ℕ)
    (hs : 0 < scale) (hlw : 0 ≤ logicalW) (hlh : 0 ≤ logicalH) :
    ((∀ i, i < ⌈logicalW * scale⌉₊ * ⌈logicalH * scale⌉₊ → alpha i ≤ 20) →
      createSimplifiedMask_center logicalW logicalH scale alpha
        = (logicalW / 2, logicalH / 2)) ∧
    (∀ i0, i0 < ⌈logicalW * scale⌉₊ * ⌈logicalH * scale⌉₊ → 20 < alpha i0 →
      ∃ xmin xmax ymin ymax : ℕ,
        (∀ i, i < ⌈logicalW * scale⌉₊ * ⌈logicalH * scale⌉₊ → 20 < alpha i →
          xmin ≤ i % ⌈logicalW * scale⌉₊ ∧ i % ⌈logicalW * scale⌉₊ ≤ xmax ∧
          ymin ≤ i / ⌈logicalW * scale⌉₊ ∧ i / ⌈logicalW * scale⌉₊ ≤ ymax) ∧
        (∃ i, i < ⌈logicalW * scale⌉₊ * ⌈logicalH * scale⌉₊ ∧ 20 < alpha i ∧
          i % ⌈logicalW * scale⌉₊ = xmin) ∧
        (∃ i, i < ⌈logicalW * scale⌉₊ * ⌈logicalH * scale⌉₊ ∧ 20 < alpha i ∧
          i % ⌈logicalW * scale⌉₊ = xmax) ∧
        (∃ i, i < ⌈logicalW * scale⌉₊ * ⌈logicalH * scale⌉₊ ∧ 20 < alpha i ∧
          i / ⌈logicalW * scale⌉₊ = ymin) ∧
        (∃ i, i < ⌈logicalW * scale⌉₊ * ⌈logicalH * scale⌉₊ ∧ 20 < alpha i ∧
          i / ⌈logicalW * scale⌉₊ = ymax) ∧
        createSimplifiedMask_center logicalW logicalH scale alpha
          = (((xmin : ℚ) + xmax) / 2 / scale, ((ymin : ℚ) + ymax) / 2 / scale) ∧
        0 ≤ (((xmin : ℚ) + xmax) / 2 / scale) ∧
        ((xmin : ℚ) + xmax) / 2 / scale ≤ logicalW ∧
        0 ≤ (((ymin : ℚ) + ymax) / 2 / scale) ∧
        ((ymin : ℚ) + ymax) / 2 / scale ≤ logicalH) := by
  constructor
  · intro hall
    rcases Nat.eq_zero_or_pos ⌈logicalW * scale⌉₊ with hW | hW
    · simp only [createSimplifiedMask_center, bboxScan, hW, Nat.zero_mul, List.range_zero,
        List.foldl_nil, bboxInit, Bool.false_eq_true, if_false]
    · obtain ⟨hempty, hiff, _, _⟩ :=
        bbox_inv ⌈logicalW * scale⌉₊ ⌈logicalH * scale⌉₊ alpha hW
          (⌈logicalW * scale⌉₊ * ⌈logicalH * scale⌉₊) (le_refl _)
      rw [show (List.range (⌈logicalW * scale⌉₊ * ⌈logicalH * scale⌉₊)).foldl
          (bboxStep ⌈logicalW * scale⌉₊ alpha) (bboxInit ⌈logicalW * scale⌉₊ ⌈logicalH * scale⌉₊)
          = bboxScan ⌈logicalW * scale⌉₊ ⌈logicalH * scale⌉₊ alpha from rfl]
        at hempty hiff
      have hfalse : (bboxScan ⌈logicalW * scale⌉₊ ⌈logicalH * scale⌉₊ alpha).hasPixels
          = false := by
        rcases hHP : (bboxScan ⌈logicalW * scale⌉₊ ⌈logicalH * scale⌉₊ alpha).hasPixels
          with _ | _
        · rfl
        · obtain ⟨i, hi, hf⟩ := hiff.mp hHP
          exact absurd hf (Nat.not_lt.mpr (hall i hi))
      simp only [createSimplifiedMask_center, hfalse, Bool.false_eq_true, if_false]
  · intro i0 hi0 hf0
    have hW : 0 < ⌈logicalW * scale⌉₊ := by
      rcases Nat.eq_zero_or_pos ⌈logicalW * scale⌉₊ with h | h
      · rw [h] at hi0; omega
      · exact h
    obtain ⟨hempty, hiff, hbound, hattain⟩ :=
      bbox_inv ⌈logicalW * scale⌉₊ ⌈logicalH * scale⌉₊ alpha hW
        (⌈logicalW * scale⌉₊ * ⌈logicalH * scale⌉₊) (le_refl _)
    rw [show (List.range (⌈logicalW * scale⌉₊ * ⌈logicalH * scale⌉₊)).foldl
        (bboxStep ⌈logicalW * scale⌉₊ alpha) (bboxInit ⌈logicalW * scale⌉₊ ⌈logicalH * scale⌉₊)
        = bboxScan ⌈logicalW * scale⌉₊ ⌈logicalH * scale⌉₊ alpha from rfl]
      at hempty hiff hbound hattain
    have hHP : (bboxScan ⌈logicalW * scale⌉₊ ⌈logicalH * scale⌉₊ alpha).hasPixels = true :=
      hiff.mpr ⟨i0, hi0, hf0⟩
    obtain ⟨hx1, hx2, hy1, hy2⟩ := hattain hHP
    refine ⟨(bboxScan ⌈logicalW * scale⌉₊ ⌈logicalH * scale⌉₊ alpha).minX,
      (bboxScan ⌈logicalW * scale⌉₊ ⌈logicalH * scale⌉₊ alpha).maxX,
      (bboxScan ⌈logicalW * scale⌉₊ ⌈logicalH * scale⌉₊ alpha).minY,
      (bboxScan ⌈logicalW * scale⌉₊ ⌈logicalH * scale⌉₊ alpha).maxY,
      hbound, hx1, hx2, hy1, hy2, ?_, ?_, ?_, ?_, ?_⟩
    · simp only [createSimplifiedMask_center, hHP, if_true]
    · positivity
    · obtain ⟨i2, hi2, _, he2⟩ := hx2
      have hxmaxW : (bboxScan ⌈logicalW * scale⌉₊ ⌈logicalH * scale⌉₊ alpha).maxX
          < ⌈logicalW * scale⌉₊ := he2 ▸ Nat.mod_lt i2 hW
      have hxminW : (bboxScan ⌈logicalW * scale⌉₊ ⌈logicalH * scale⌉₊ alpha).minX
          ≤ (bboxScan ⌈logicalW * scale⌉₊ ⌈logicalH * scale⌉₊ alpha).maxX := by
        obtain ⟨i1, hi1, hf1, he1⟩ := hx1
        obtain ⟨hb1, hb2, _, _⟩ := hbound i1 hi1 hf1
        omega
      have hceil : ((⌈logicalW * scale⌉₊ : ℕ) : ℚ) < logicalW * scale + 1 :=
        Nat.ceil_lt_add_one (by positivity)
      rw [div_le_iff₀ hs, div_le_iff₀ (by norm_num : (0:ℚ) < 2)]
      have h1 : ((bboxScan ⌈logicalW * scale⌉₊ ⌈logicalH * scale⌉₊ alpha).maxX : ℚ)
          ≤ ((⌈logicalW * scale⌉₊ : ℕ) : ℚ) - 1 := by
        have h := (Nat.cast_le (α := ℚ)).mpr (Nat.succ_le_of_lt hxmaxW)
        push_cast at h
        linarith
      have h2 : ((bboxScan ⌈logicalW * scale⌉₊ ⌈logicalH * scale⌉₊ alpha).minX : ℚ)
          ≤ ((⌈logicalW * scale⌉₊ : ℕ) : ℚ) - 1 := by
        have h := (Nat.cast_le (α := ℚ)).mpr hxminW
        linarith
      linarith
    · positivity
    · obtain ⟨i4, hi4, _, he4⟩ := hy2
      have hymaxH : (bboxScan ⌈logicalW * scale⌉₊ ⌈logicalH * scale⌉₊ alpha).maxY
          < ⌈logicalH * scale⌉₊ :=
        he4 ▸ ((Nat.div_lt_iff_lt_mul hW).mpr (by rw [Nat.mul_comm]; exact hi4))
      have hyminH : (bboxScan ⌈logicalW * scale⌉₊ ⌈logicalH * scale⌉₊ alpha).minY
          ≤ (bboxScan ⌈logicalW * scale⌉₊ ⌈logicalH * scale⌉₊ alpha).maxY := by
        obtain ⟨i3, hi3, hf3, he3⟩ := hy1
        obtain ⟨_, _, hb3, hb4⟩ := hbound i3 hi3 hf3
        omega
      have hceil : ((⌈logicalH * scale⌉₊ : ℕ) : ℚ) < logicalH * scale + 1 :=
        Nat.ceil_lt_add_one (by positivity)
      rw [div_le_iff₀ hs, div_le_iff₀ (by norm_num : (0:ℚ) < 2)]
      have h1 : ((bboxScan ⌈logicalW * scale⌉₊ ⌈logicalH * scale⌉₊ alpha).maxY : ℚ)
          ≤ ((⌈logicalH * scale⌉₊ : ℕ) : ℚ) - 1 := by
        have h := (Nat.cast_le (α := ℚ)).mpr (Nat.succ_le_of_lt hymaxH)
        push_cast at h
        linarith
      have h2 : ((bboxScan ⌈logicalW * scale⌉₊ ⌈logicalH * scale⌉₊ alpha).minY : ℚ)
          ≤ ((⌈logicalH * scale⌉₊ : ℕ) : ℚ) - 1 := by
        have h := (Nat.cast_le (α := ℚ)).mpr hyminH
        linarith
      linarith

/-- Witness for C5: on a 2×2 buffer at scale 1, an all-background mask centers at
the canvas midpoint `(1,1)`; a mask whose only foreground pixel is pixel 0
centers at `(0,0)`, the midpoint of its one-pixel bounding box. -/
theorem C5_mask_center_witness :
    createSimplifiedMask_center 2 2 1 (fun _ => 0) = (1, 1) ∧
    createSimplifiedMask_center 2 2 1 (fun i => if i = 0 then 255 else 0) = (0, 0) := by
  constructor
  · rw [(C5_mask_center 2 2 1 (fun _ => 0) (by norm_num) (by norm_num) (by norm_num)).1
      (fun i _ => Nat.zero_le 20)]
    norm_num
  · norm_num [createSimplifiedMask_center, bboxScan, bboxStep, bboxInit, List.range_succ]

/-- C8: mask acquisition never raises past its boundary and signals failure as
`null`: a rejected fetch, a non-ok (non-2xx / auth-failure) response, a rejected
blob read and a rejected decode all make `removeBackgroundSD3` return `null`;
whatever the body does, the `catch` wrapper returns a plain value (`null` on any
escaped exception); and `generateSoftMask` resolves to `null` on image decode
failure instead of throwing. -/
theorem C8_mask_failure_null :
    (∀ env : SD3Env, ∀ e, env.fetchResult = .error e → removeBackgroundSD3 env = none) ∧
    (∀ env : SD3Env, ∀ resp, env.fetchResult = .ok resp → resp.ok = false →
      removeBackgroundSD3 env = none) ∧
    (∀ env : SD3Env, ∀ resp e, env.fetchResult = .ok resp → resp.ok = true →
      env.blobResult = .error e → removeBackgroundSD3 env = none) ∧
    (∀ env : SD3Env, ∀ resp blob e, env.fetchResult = .ok resp → resp.ok = true →
      env.blobResult = .ok blob → env.decodeResult blob = .error e →
      removeBackgroundSD3 env = none) ∧
    (∀ env : SD3Env, ∀ e, removeBackgroundSD3_body env = .error e →
      removeBackgroundSD3 env = none) ∧
    (∀ env : SD3Env, ∀ r, removeBackgroundSD3_body env = .ok r →
      removeBackgroundSD3 env = r) ∧
    (∀ pipeline : ℕ → ℕ, generateSoftMask_decodeBoundary none pipeline = none) ∧
    (∀ pipeline : ℕ → ℕ, ∀ img,
      generateSoftMask_decodeBoundary (some img) pipeline = some (pipeline img)) := by
  refine ⟨?_, ?_, ?_, ?_, ?_, ?_, fun _ => rfl, fun _ _ => rfl⟩
  · intro env e he
    rw [removeBackgroundSD3, removeBackgroundSD3_body, he]
    rfl
  · intro env resp he hok
    rw [removeBackgroundSD3, removeBackgroundSD3_body, he]
    show (match (do
      if resp.ok then
        let blob ← env.blobResult
        let bmp ← env.decodeResult blob
        return some bmp
      else
        return none : Except String (Option ℕ)) with
      | .ok r => r | .error _ => none) = none
    rw [hok]
    rfl
  · intro env resp e he hok hb
    rw [removeBackgroundSD3, removeBackgroundSD3_body, he]
    show (match (do
      if resp.ok then
        let blob ← env.blobResult
        let bmp ← env.decodeResult blob
        return some bmp
      else
        return none : Except String (Option ℕ)) with
      | .ok r => r | .error _ => none) = none
    rw [hok]
    show (match (do
      let blob ← env.blobResult
      let bmp ← env.decodeResult blob
      return (some bmp : Option ℕ) : Except String (Option ℕ)) with
      | .ok r => r | .error _ => none) = none
    rw [show (do
      let blob ← env.blobResult
      let bmp ← env.decodeResult blob
      return (some bmp : Option ℕ) : Except String (Option ℕ))
      = env.blobResult.bind (fun blob => (env.decodeResult blob).bind
          (fun bmp => Except.ok (some bmp))) from rfl, hb]
    rfl
  · intro env resp blob e he hok hb hd
    rw [removeBackgroundSD3, removeBackgroundSD3_body, he]
    show (match (do
      if resp.ok then
        let blob ← env.blobResult
        let bmp ← env.decodeResult blob
        return some bmp
      else
        return none : Except String (Option ℕ)) with
      | .ok r => r | .error _ => none) = none
    rw [hok]
    show (match (do
      let blob ← env.blobResult
      let bmp ← env.decodeResult blob
      return (some bmp : Option ℕ) : Except String (Option ℕ)) with
      | .ok r => r | .error _ => none) = none
    rw [show (do
      let blob ← env.blobResult
      let bmp ← env.decodeResult blob
      return (some bmp : Option ℕ) : Except String (Option ℕ))
      = env.blobResult.bind (fun blob => (env.decodeResult blob).bind
          (fun bmp => Except.ok (some bmp))) from rfl, hb]
    show (match (env.decodeResult blob).bind (fun bmp => Except.ok (some bmp)) with
      | .ok r => r | .error _ => none) = none
    rw [hd]
    rfl
  · intro env e he
    rw [removeBackgroundSD3, he]
  · intro env r hr
    rw [removeBackgroundSD3, hr]

/-- Witness for C8: a network-failing environment and a 401 environment both
yield `null`; a fully succeeding environment yields the decoded bitmap. -/
theorem C8_mask_failure_null_witness :
    removeBackgroundSD3 ⟨.error "network down", .ok 0, fun _ => .ok 7⟩ = none ∧
    removeBackgroundSD3 ⟨.ok ⟨false, 401⟩, .ok 0, fun _ => .ok 7⟩ = none ∧
    removeBackgroundSD3 ⟨.ok ⟨true, 200⟩, .ok 3, fun b => .ok (b + 4)⟩ = some 7 ∧
    generateSoftMask_decodeBoundary none (fun img => img + 1) = none := by
  refine ⟨?_, ?_, ?_, ?_⟩
  · exact C8_mask_failure_null.1 ⟨.error "network down", .ok 0, fun _ => .ok 7⟩
      "network down" rfl
  · exact C8_mask_failure_null.2.1 ⟨.ok ⟨false, 401⟩, .ok 0, fun _ => .ok 7⟩
      ⟨false, 401⟩ rfl rfl
  · exact C8_mask_failure_null.2.2.2.2.2.1 ⟨.ok ⟨true, 200⟩, .ok 3, fun b => .ok (b + 4)⟩
      (some 7) rfl
  · exact C8_mask_failure_null.2.2.2.2.2.2.1 (fun img => img + 1)

/-! Generic facts about `foldl min` and about index-local fold steps. -/

lemma foldl_min_le_init {α : Type} [LinearOrder α] (l : List α) (a : α) :
    l.foldl min a ≤ a := by
  induction l generalizing a with
  | nil => exact le_refl a
  | cons b l ih => exact (ih (min a b)).trans (min_le_left a b)

lemma foldl_min_le_mem {α : Type} [LinearOrder α] (l : List α) (a b : α) (hb : b ∈ l) :
    l.foldl min a ≤ b := by
  induction l generalizing a with
  | nil => cases hb
  | cons c l ih =>
    rcases List.mem_cons.mp hb with rfl | hb
    · exact (foldl_min_le_init l (min a b)).trans (min_le_right a b)
    · exact ih (min a c) hb

lemma le_foldl_min {α : Type} [LinearOrder α] (l : List α) (a c : α)
    (ha : c ≤ a) (hl : ∀ b ∈ l, c ≤ b) : c ≤ l.foldl min a := by
  induction l generalizing a with
  | nil => exact ha
  | cons b l ih =>
    exact ih (min a b) (le_min ha (hl b (List.mem_cons_self b l)))
      (fun x hx => hl x (List.mem_cons_of_mem b hx))

lemma stepFwd_apply_ne (W : ℕ) (d : ℕ → WithTop ℚ) (idx j : ℕ) (hj : j ≠ idx) :
    stepFwd W d idx j = d j := by
  rw [stepFwd]
  split
  · rfl
  · exact Function.update_noteq hj _ d

lemma stepBwd_apply_ne (W H : ℕ) (d : ℕ → WithTop ℚ) (idx j : ℕ) (hj : j ≠ idx) :
    stepBwd W H d idx j = d j := by
  rw [stepBwd]
  split
  · rfl
  · exact Function.update_noteq hj _ d

lemma stepFwd_le (W : ℕ) (d : ℕ → WithTop ℚ) (idx j : ℕ) :
    stepFwd W d idx j ≤ d j := by
  rcases eq_or_ne j idx with rfl | hj
  · rw [stepFwd]
    split
    · exact le_refl _
    · rw [Function.update_same]
      exact foldl_min_le_init _ _
  · rw [stepFwd_apply_ne W d idx j hj]

lemma stepBwd_le (W H : ℕ) (d : ℕ → WithTop ℚ) (idx j : ℕ) :
    stepBwd W H d idx j ≤ d j := by
  rcases eq_or_ne j idx with rfl | hj
  · rw [stepBwd]
    split
    · exact le_refl _
    · rw [Function.update_same]
      exact foldl_min_le_init _ _
  · rw [stepBwd_apply_ne W H d idx j hj]

lemma foldl_apply_of_not_mem (step : (ℕ → WithTop ℚ) → ℕ → (ℕ → WithTop ℚ))
    (hstep : ∀ d i j, j ≠ i → step d i j = d j)
    (l : List ℕ) (d : ℕ → WithTop ℚ) (j : ℕ) (hj : j ∉ l) :
    (l.foldl step d) j = d j := by
  induction l generalizing d with
  | nil => rfl
  | cons i l ih =>
    rw [List.foldl_cons, ih _ (fun h => hj (List.mem_cons_of_mem i h)),
      hstep d i j (fun h => hj (h ▸ List.mem_cons_self i l))]

lemma foldl_le (step : (ℕ → WithTop ℚ) → ℕ → (ℕ → WithTop ℚ))
    (hstep : ∀ d i j, step d i j ≤ d j)
    (l : List ℕ) (d : ℕ → WithTop ℚ) (j : ℕ) :
    (l.foldl step d) j ≤ d j := by
  induction l generalizing d with
  | nil => exact le_refl _
  | cons i l ih => exact (ih (step d i)).trans (hstep d i j)

lemma foldl_preserves (step : (ℕ → WithTop ℚ) → ℕ → (ℕ → WithTop ℚ))
    (P : (ℕ → WithTop ℚ) → Prop)
    (hstep : ∀ d i, P d → P (step d i))
    (l : List ℕ) (d : ℕ → WithTop ℚ) (hd : P d) :
    P (l.foldl step d) := by
  induction l generalizing d with
  | nil => exact hd
  | cons i l ih => exact ih (step d i) (hstep d i hd)

lemma mem_guard_list {P : Prop} [Decidable P] {x c : WithTop ℚ}
    (h : c ∈ (if P then [x] else [])) : P ∧ c = x := by
  split at h
  · exact ⟨by assumption, List.mem_singleton.mp h⟩
  · cases h

lemma fwdCandidates_shape (W : ℕ) (d : ℕ → WithTop ℚ) (idx : ℕ) :
    ∀ c ∈ fwdCandidates W d idx, ∃ n, ∃ w : ℚ, (w = w1 ∨ w = w2) ∧ c = d n + ↑w := by
  intro c hc
  rw [fwdCandidates] at hc
  rcases List.mem_append.mp hc with hc | hc
  · rcases List.mem_append.mp hc with hc | hc
    · rcases List.mem_append.mp hc with hc | hc
      · exact ⟨idx - 1, w1, Or.inl rfl, (mem_guard_list hc).2⟩
      · exact ⟨idx - W - 1, w2, Or.inr rfl, (mem_guard_list hc).2⟩
    · exact ⟨idx - W, w1, Or.inl rfl, (mem_guard_list hc).2⟩
  · exact ⟨idx - W + 1, w2, Or.inr rfl, (mem_guard_list hc).2⟩

lemma bwdCandidates_shape (W H : ℕ) (d : ℕ → WithTop ℚ) (idx : ℕ) :
    ∀ c ∈ bwdCandidates W H d idx, ∃ n, ∃ w : ℚ, (w = w1 ∨ w = w2) ∧ c = d n + ↑w := by
  intro c hc
  rw [bwdCandidates] at hc
  rcases List.mem_append.mp hc with hc | hc
  · rcases List.mem_append.mp hc with hc | hc
    · rcases List.mem_append.mp hc with hc | hc
      · exact ⟨idx + 1, w1, Or.inl rfl, (mem_guard_list hc).2⟩
      · exact ⟨idx + W + 1, w2, Or.inr rfl, (mem_guard_list hc).2⟩
    · exact ⟨idx + W, w1, Or.inl rfl, (mem_guard_list hc).2⟩
  · exact ⟨idx + W - 1, w2, Or.inr rfl, (mem_guard_list hc).2⟩

lemma distInv_seed (alpha : ℕ → ℕ) : distInv alpha (seedDist alpha) := by
  constructor
  · intro j hj
    rw [seedDist, if_pos hj]
  · intro j hj
    rw [seedDist, if_neg hj]
    exact le_top

lemma distInv_nonneg {alpha : ℕ → ℕ} {d : ℕ → WithTop ℚ} (h : distInv alpha d) (j : ℕ) :
    0 ≤ d j := by
  by_cases hj : 128 < alpha j
  · rw [h.1 j hj]
  · exact le_trans (by exact_mod_cast (by norm_num : (0:ℚ) ≤ 1)) (h.2 j hj)

lemma weight_ge_one {w : ℚ} (hw : w = w1 ∨ w = w2) : (1 : WithTop ℚ) ≤ ↑w := by
  rcases hw with rfl | rfl
  · exact_mod_cast (by norm_num [w1] : (1:ℚ) ≤ w1)
  · exact_mod_cast (by norm_num [w2] : (1:ℚ) ≤ w2)

lemma candidate_ge_one {alpha : ℕ → ℕ} {d : ℕ → WithTop ℚ} (h : distInv alpha d)
    {c : WithTop ℚ} {n : ℕ} {w : ℚ} (hw : w = w1 ∨ w = w2) (hc : c = d n + ↑w) :
    (1 : WithTop ℚ) ≤ c := by
  rw [hc]
  calc (1 : WithTop ℚ) = 0 + 1 := (zero_add 1).symm
  _ ≤ d n + ↑w := add_le_add (distInv_nonneg h n) (weight_ge_one hw)

lemma stepFwd_preserves_inv (W : ℕ) (alpha : ℕ → ℕ) (d : ℕ → WithTop ℚ) (idx : ℕ)
    (h : distInv alpha d) : distInv alpha (stepFwd W d idx) := by
  rw [stepFwd]
  split
  · exact h
  · rename_i hne
    constructor
    · intro j hj
      rcases eq_or_ne j idx with rfl | hji
      · exact absurd (h.1 j hj) hne
      · rw [Function.update_noteq hji]
        exact h.1 j hj
    · intro j hj
      rcases eq_or_ne j idx with rfl | hji
      · rw [Function.update_same]
        refine le_foldl_min _ _ _ (h.2 j hj) ?_
        intro b hb
        obtain ⟨n, w, hw, hc⟩ := fwdCandidates_shape W d j b hb
        exact candidate_ge_one h hw hc
      · rw [Function.update_noteq hji]
        exact h.2 j hj

lemma stepBwd_preserves_inv (W H : ℕ) (alpha : ℕ → ℕ) (d : ℕ → WithTop ℚ) (idx : ℕ)
    (h : distInv alpha d) : distInv alpha (stepBwd W H d idx) := by
  rw [stepBwd]
  split
  · exact h
  · rename_i hne
    constructor
    · intro j hj
      rcases eq_or_ne j idx with rfl | hji
      · exact absurd (h.1 j hj) hne
      · rw [Function.update_noteq hji]
        exact h.1 j hj
    · intro j hj
      rcases eq_or_ne j idx with rfl | hji
      · rw [Function.update_same]
        refine le_foldl_min _ _ _ (h.2 j hj) ?_
        intro b hb
        obtain ⟨n, w, hw, hc⟩ := bwdCandidates_shape W H d j b hb
        exact candidate_ge_one h hw hc
      · rw [Function.update_noteq hji]
        exact h.2 j hj

lemma distInv_pass1 (W H : ℕ) (alpha : ℕ → ℕ) : distInv alpha (chamferPass1 W H alpha) :=
  foldl_preserves (stepFwd W) (distInv alpha) (stepFwd_preserves_inv W alpha)
    _ _ (distInv_seed alpha)

lemma distInv_field (W H : ℕ) (alpha : ℕ → ℕ) :
    distInv alpha (computeDistanceField W H alpha) :=
  foldl_preserves (stepBwd W H) (distInv alpha) (stepBwd_preserves_inv W H alpha)
    _ _ (distInv_pass1 W H alpha)

lemma field_le_pass1 (W H : ℕ) (alpha : ℕ → ℕ) (j : ℕ) :
    computeDistanceField W H alpha j ≤ chamferPass1 W H alpha j :=
  foldl_le (stepBwd W H) (stepBwd_le W H) _ _ j

lemma range_split (N p : ℕ) (hp : p ≤ N) :
    List.range N = List.range p ++ List.range' p (N - p) := by
  rw [List.range_eq_range', List.range_eq_range']
  have h := List.range'_append 0 p (N - p) 1
  simp only [Nat.one_mul, Nat.zero_add] at h
  rw [show N - p + p = N from by omega] at h
  exact h.symm

lemma distInv_pass1Prefix (W : ℕ) (alpha : ℕ → ℕ) (p : ℕ) :
    distInv alpha (pass1Prefix W alpha p) :=
  foldl_preserves (stepFwd W) (distInv alpha) (stepFwd_preserves_inv W alpha)
    _ _ (distInv_seed alpha)

lemma distInv_pass2Prefix (W H : ℕ) (alpha : ℕ → ℕ) (p : ℕ) :
    distInv alpha (pass2Prefix W H alpha p) :=
  foldl_preserves (stepBwd W H) (distInv alpha) (stepBwd_preserves_inv W H alpha)
    _ _ (distInv_pass1 W H alpha)

lemma pass1_prefix_agrees (W H : ℕ) (alpha : ℕ → ℕ) (p : ℕ) (hpN : p ≤ W * H)
    (q : ℕ) (hq : q < p) :
    pass1Prefix W alpha p q = chamferPass1 W H alpha q := by
  rw [chamferPass1, range_split (W * H) p hpN, List.foldl_append]
  exact (foldl_apply_of_not_mem _ (stepFwd_apply_ne W) _ _ q (by
    intro hmem
    have := (List.mem_range'_1.mp hmem).1
    omega)).symm

lemma chamferPass1_at (W H : ℕ) (alpha : ℕ → ℕ) (p : ℕ) (hp : p < W * H) :
    chamferPass1 W H alpha p = stepFwd W (pass1Prefix W alpha p) p p := by
  rw [chamferPass1, range_split (W * H) p (le_of_lt hp),
    show W * H - p = (W * H - p - 1) + 1 from by omega, List.range'_succ,
    List.foldl_append, List.foldl_cons]
  exact foldl_apply_of_not_mem _ (stepFwd_apply_ne W) _ _ p (by
    intro hmem
    have := (List.mem_range'_1.mp hmem).1
    omega)

lemma field_at (W H : ℕ) (alpha : ℕ → ℕ) (p : ℕ) (hp : p < W * H) :
    computeDistanceField W H alpha p = stepBwd W H (pass2Prefix W H alpha p) p p := by
  rw [computeDistanceField, range_split (W * H) p (le_of_lt hp),
    show W * H - p = (W * H - p - 1) + 1 from by omega, List.range'_succ,
    List.reverse_append, List.reverse_cons, List.foldl_append, List.foldl_append,
    List.foldl_cons, List.foldl_nil]
  exact foldl_apply_of_not_mem _ (stepBwd_apply_ne W H) _ _ p (by
    intro hmem
    have := List.mem_range.mp (List.mem_reverse.mp hmem)
    omega)

lemma pass2_prefix_agrees (W H : ℕ) (alpha : ℕ → ℕ) (p : ℕ) (hpN : p < W * H)
    (q : ℕ) (hq : p < q) :
    pass2Prefix W H alpha p q = computeDistanceField W H alpha q := by
  rw [computeDistanceField, range_split (W * H) p (le_of_lt hpN),
    show W * H - p = (W * H - p - 1) + 1 from by omega, List.range'_succ,
    List.reverse_append, List.reverse_cons, List.foldl_append, List.foldl_append,
    List.foldl_cons, List.foldl_nil]
  rw [foldl_apply_of_not_mem _ (stepBwd_apply_ne W H) _ _ q (by
    intro hmem
    have := List.mem_range.mp (List.mem_reverse.mp hmem)
    omega)]
  rw [stepBwd_apply_ne W H _ p q (by omega)]
  rfl

lemma qi_one_le_ne_zero {v : WithTop ℚ} (h : (1 : WithTop ℚ) ≤ v) : v ≠ 0 := by
  intro h0
  rw [h0] at h
  have : (1 : ℚ) ≤ 0 := by exact_mod_cast h
  norm_num at this

lemma pass1_le_candidate (W H : ℕ) (alpha : ℕ → ℕ) (p : ℕ) (c : WithTop ℚ)
    (hp : p < W * H) (hbg : ¬ 128 < alpha p)
    (hc : c ∈ fwdCandidates W (pass1Prefix W alpha p) p) :
    chamferPass1 W H alpha p ≤ c := by
  rw [chamferPass1_at W H alpha p hp, stepFwd,
    if_neg (qi_one_le_ne_zero ((distInv_pass1Prefix W alpha p).2 p hbg)),
    Function.update_same]
  exact foldl_min_le_mem _ _ c hc

lemma field_le_candidate (W H : ℕ) (alpha : ℕ → ℕ) (p : ℕ) (c : WithTop ℚ)
    (hp : p < W * H) (hbg : ¬ 128 < alpha p)
    (hc : c ∈ bwdCandidates W H (pass2Prefix W H alpha p) p) :
    computeDistanceField W H alpha p ≤ c := by
  rw [field_at W H alpha p hp, stepBwd,
    if_neg (qi_one_le_ne_zero ((distInv_pass2Prefix W H alpha p).2 p hbg)),
    Function.update_same]
  exact foldl_min_le_mem _ _ c hc

lemma idx_mod (W x y : ℕ) (hx : x < W) : (y * W + x) % W = x := by
  rw [Nat.add_comm, Nat.add_mul_mod_self_right]
  exact Nat.mod_eq_of_lt hx

lemma idx_div (W x y : ℕ) (hx : x < W) : (y * W + x) / W = y := by
  have hW : 0 < W := lt_of_le_of_lt (Nat.zero_le x) hx
  rw [Nat.mul_comm y W, Nat.mul_add_div hW, Nat.div_eq_of_lt hx, Nat.add_zero]

lemma idx_lt (W H x y : ℕ) (hx : x < W) (hy : y < H) : y * W + x < W * H := by
  calc y * W + x < y * W + W := by omega
  _ = (y + 1) * W := (Nat.succ_mul y W).symm
  _ ≤ H * W := Nat.mul_le_mul_right W hy
  _ = W * H := Nat.mul_comm H W

lemma mul_pred_add (y W : ℕ) (hy : 0 < y) : y * W = (y - 1) * W + W := by
  obtain ⟨y', rfl⟩ : ∃ y', y = y' + 1 := ⟨y - 1, by omega⟩
  simp [Nat.succ_mul]

lemma qi_coe_w1 : ((w1 : ℚ) : WithTop ℚ) = 1 := by
  rw [w1]
  exact_mod_cast rfl

/-- C2 helper: background pixel with a foreground neighbor one step left. -/
lemma field_axis_left (W H : ℕ) (alpha : ℕ → ℕ) (x y : ℕ) (hx : x < W) (hy : y < H)
    (hbg : ¬ 128 < alpha (y * W + x)) (hxpos : 0 < x)
    (hfg : 128 < alpha (y * W + (x - 1))) :
    computeDistanceField W H alpha (y * W + x) = 1 := by
  have hp : y * W + x < W * H := idx_lt W H x y hx hy
  apply le_antisymm
  · have hmem : pass1Prefix W alpha (y * W + x) (y * W + x - 1) + (w1 : ℚ)
        ∈ fwdCandidates W (pass1Prefix W alpha (y * W + x)) (y * W + x) := by
      have hguard : 0 < (y * W + x) % W := by rw [idx_mod W x y hx]; exact hxpos
      simp [fwdCandidates, hguard]
    have h0 : pass1Prefix W alpha (y * W + x) (y * W + x - 1) = 0 := by
      refine (distInv_pass1Prefix W alpha (y * W + x)).1 _ ?_
      rw [show y * W + x - 1 = y * W + (x - 1) from by omega]
      exact hfg
    have hle := pass1_le_candidate W H alpha (y * W + x) _ hp hbg hmem
    rw [h0, zero_add, qi_coe_w1] at hle
    exact (field_le_pass1 W H alpha (y * W + x)).trans hle
  · exact (distInv_field W H alpha).2 _ hbg

/-- C2 helper: background pixel with a foreground neighbor one step up. -/
lemma field_axis_up (W H : ℕ) (alpha : ℕ → ℕ) (x y : ℕ) (hx : x < W) (hy : y < H)
    (hbg : ¬ 128 < alpha (y * W + x)) (hypos : 0 < y)
    (hfg : 128 < alpha ((y - 1) * W + x)) :
    computeDistanceField W H alpha (y * W + x) = 1 := by
  have hp : y * W + x < W * H := idx_lt W H x y hx hy
  have hmul := mul_pred_add y W hypos
  apply le_antisymm
  · have hmem : pass1Prefix W alpha (y * W + x) (y * W + x - W) + (w1 : ℚ)
        ∈ fwdCandidates W (pass1Prefix W alpha (y * W + x)) (y * W + x) := by
      have hguard : 0 < (y * W + x) / W := by rw [idx_div W x y hx]; exact hypos
      simp [fwdCandidates, hguard]
    have h0 : pass1Prefix W alpha (y * W + x) (y * W + x - W) = 0 := by
      refine (distInv_pass1Prefix W alpha (y * W + x)).1 _ ?_
      rw [show y * W + x - W = (y - 1) * W + x from by omega]
      exact hfg
    have hle := pass1_le_candidate W H alpha (y * W + x) _ hp hbg hmem
    rw [h0, zero_add, qi_coe_w1] at hle
    exact (field_le_pass1 W H alpha (y * W + x)).trans hle
  · exact (distInv_field W H alpha).2 _ hbg

/-- C2 helper: background pixel with a foreground neighbor one step right. -/
lemma field_axis_right (W H : ℕ) (alpha : ℕ → ℕ) (x y : ℕ) (hx : x < W) (hy : y < H)
    (hbg : ¬ 128 < alpha (y * W + x)) (hxr : x + 1 < W)
    (hfg : 128 < alpha (y * W + (x + 1))) :
    computeDistanceField W H alpha (y * W + x) = 1 := by
  have hp : y * W + x < W * H := idx_lt W H x y hx hy
  apply le_antisymm
  · have hmem : pass2Prefix W H alpha (y * W + x) (y * W + x + 1) + (w1 : ℚ)
        ∈ bwdCandidates W H (pass2Prefix W H alpha (y * W + x)) (y * W + x) := by
      have hguard : (y * W + x) % W < W - 1 := by rw [idx_mod W x y hx]; omega
      simp [bwdCandidates, hguard]
    have h0 : pass2Prefix W H alpha (y * W + x) (y * W + x + 1) = 0 := by
      refine (distInv_pass2Prefix W H alpha (y * W + x)).1 _ ?_
      rw [show y * W + x + 1 = y * W + (x + 1) from by omega]
      exact hfg
    have hle := field_le_candidate W H alpha (y * W + x) _ hp hbg hmem
    rw [h0, zero_add, qi_coe_w1] at hle
    exact hle
  · exact (distInv_field W H alpha).2 _ hbg

/-- C2 helper: background pixel with a foreground neighbor one step down. -/
lemma field_axis_down (W H : ℕ) (alpha : ℕ → ℕ) (x y : ℕ) (hx : x < W) (hy : y < H)
    (hbg : ¬ 128 < alpha (y * W + x)) (hyr : y + 1 < H)
    (hfg : 128 < alpha ((y + 1) * W + x)) :
    computeDistanceField W H alpha (y * W + x) = 1 := by
  have hp : y * W + x < W * H := idx_lt W H x y hx hy
  apply le_antisymm
  · have hmem : pass2Prefix W H alpha (y * W + x) (y * W + x + W) + (w1 : ℚ)
        ∈ bwdCandidates W H (pass2Prefix W H alpha (y * W + x)) (y * W + x) := by
      have hguard : (y * W + x) / W < H - 1 := by rw [idx_div W x y hx]; omega
      simp [bwdCandidates, hguard]
    have h0 : pass2Prefix W H alpha (y * W + x) (y * W + x + W) = 0 := by
      refine (distInv_pass2Prefix W H alpha (y * W + x)).1 _ ?_
      rw [show y * W + x + W = (y + 1) * W + x from by rw [Nat.succ_mul]; omega]
      exact hfg
    have hle := field_le_candidate W H alpha (y * W + x) _ hp hbg hmem
    rw [h0, zero_add, qi_coe_w1] at hle
    exact hle
  · exact (distInv_field W H alpha).2 _ hbg

lemma axis_candidate_ge_w2 {d : ℕ → WithTop ℚ} {n : ℕ} (h1 : 1 ≤ d n) :
    ((w2 : ℚ) : WithTop ℚ) ≤ d n + (w1 : ℚ) := by
  rw [qi_coe_w1]
  have h2 : ((w2 : ℚ) : WithTop ℚ) ≤ ((2 : ℚ) : WithTop ℚ) :=
    WithTop.coe_le_coe.mpr (by norm_num [w2])
  have h3 : ((2 : ℚ) : WithTop ℚ) = 1 + 1 := by
    rw [show (2:ℚ) = 1 + 1 from by norm_num, WithTop.coe_add, WithTop.coe_one]
  calc ((w2 : ℚ) : WithTop ℚ) ≤ ((2 : ℚ) : WithTop ℚ) := h2
  _ = 1 + 1 := h3
  _ ≤ d n + 1 := add_le_add_right h1 1

lemma diag_candidate_ge_w2 {d : ℕ → WithTop ℚ} {n : ℕ} (h0 : 0 ≤ d n) :
    ((w2 : ℚ) : WithTop ℚ) ≤ d n + (w2 : ℚ) := by
  calc ((w2 : ℚ) : WithTop ℚ) = 0 + (w2 : ℚ) := (zero_add _).symm
  _ ≤ d n + (w2 : ℚ) := add_le_add_right h0 _

lemma qi_w2_pos_ne_zero {v : WithTop ℚ} (h : ((w2 : ℚ) : WithTop ℚ) ≤ v) : v ≠ 0 := by
  intro h0
  rw [h0] at h
  have : w2 ≤ (0:ℚ) := by exact_mod_cast h
  norm_num [w2] at this

lemma stepFwd_preserves_diagInv (W : ℕ) (alpha : ℕ → ℕ) (p : ℕ)
    (haxL : 0 < p % W → ¬ 128 < alpha (p - 1))
    (haxU : 0 < p / W → ¬ 128 < alpha (p - W))
    (d : ℕ → WithTop ℚ) (idx : ℕ) (h : diagInv alpha p d) :
    diagInv alpha p (stepFwd W d idx) := by
  refine ⟨stepFwd_preserves_inv W alpha d idx h.1, ?_⟩
  rcases eq_or_ne p idx with rfl | hpi
  · rw [stepFwd]
    split
    · exact h.2
    · rw [Function.update_same]
      refine le_foldl_min _ _ _ h.2 ?_
      intro b hb
      rw [fwdCandidates] at hb
      rcases List.mem_append.mp hb with hb | hb
      · rcases List.mem_append.mp hb with hb | hb
        · rcases List.mem_append.mp hb with hb | hb
          · obtain ⟨hg, rfl⟩ := mem_guard_list hb
            exact axis_candidate_ge_w2 (h.1.2 _ (haxL hg))
          · obtain ⟨hg, rfl⟩ := mem_guard_list hb
            exact diag_candidate_ge_w2 (distInv_nonneg h.1 _)
        · obtain ⟨hg, rfl⟩ := mem_guard_list hb
          exact axis_candidate_ge_w2 (h.1.2 _ (haxU hg))
      · obtain ⟨hg, rfl⟩ := mem_guard_list hb
        exact diag_candidate_ge_w2 (distInv_nonneg h.1 _)
  · rw [stepFwd_apply_ne W d idx p hpi]
    exact h.2

lemma stepBwd_preserves_diagInv (W H : ℕ) (alpha : ℕ → ℕ) (p : ℕ)
    (haxR : p % W < W - 1 → ¬ 128 < alpha (p + 1))
    (haxD : p / W < H - 1 → ¬ 128 < alpha (p + W))
    (d : ℕ → WithTop ℚ) (idx : ℕ) (h : diagInv alpha p d) :
    diagInv alpha p (stepBwd W H d idx) := by
  refine ⟨stepBwd_preserves_inv W H alpha d idx h.1, ?_⟩
  rcases eq_or_ne p idx with rfl | hpi
  · rw [stepBwd]
    split
    · exact h.2
    · rw [Function.update_same]
      refine le_foldl_min _ _ _ h.2 ?_
      intro b hb
      rw [bwdCandidates] at hb
      rcases List.mem_append.mp hb with hb | hb
      · rcases List.mem_append.mp hb with hb | hb
        · rcases List.mem_append.mp hb with hb | hb
          · obtain ⟨hg, rfl⟩ := mem_guard_list hb
            exact axis_candidate_ge_w2 (h.1.2 _ (haxR hg))
          · obtain ⟨hg, rfl⟩ := mem_guard_list hb
            exact diag_candidate_ge_w2 (distInv_nonneg h.1 _)
        · obtain ⟨hg, rfl⟩ := mem_guard_list hb
          exact axis_candidate_ge_w2 (h.1.2 _ (haxD hg))
      · obtain ⟨hg, rfl⟩ := mem_guard_list hb
        exact diag_candidate_ge_w2 (distInv_nonneg h.1 _)
  · rw [stepBwd_apply_ne W H d idx p hpi]
    exact h.2

/-- With no foreground axis neighbor, `w2` is a lower bound of the final field
at `p`. -/
lemma field_ge_w2 (W H : ℕ) (alpha : ℕ → ℕ) (p : ℕ)
    (hbg : ¬ 128 < alpha p)
    (haxL : 0 < p % W → ¬ 128 < alpha (p - 1))
    (haxU : 0 < p / W → ¬ 128 < alpha (p - W))
    (haxR : p % W < W - 1 → ¬ 128 < alpha (p + 1))
    (haxD : p / W < H - 1 → ¬ 128 < alpha (p + W)) :
    ((w2 : ℚ) : WithTop ℚ) ≤ computeDistanceField W H alpha p := by
  have hseed : diagInv alpha p (seedDist alpha) := by
    refine ⟨distInv_seed alpha, ?_⟩
    rw [seedDist, if_neg hbg]
    exact le_top
  have h1 : diagInv alpha p (chamferPass1 W H alpha) :=
    foldl_preserves (stepFwd W) (diagInv alpha p)
      (stepFwd_preserves_diagInv W alpha p haxL haxU) _ _ hseed
  exact (foldl_preserves (stepBwd W H) (diagInv alpha p)
    (stepBwd_preserves_diagInv W H alpha p haxR haxD) _ _ h1).2

/-- Converts coordinate-form "no foreground axis neighbor" hypotheses to the
index form used by the invariant, and returns the `w2` lower bound. -/
lemma field_ge_w2_coords (W H : ℕ) (alpha : ℕ → ℕ) (x y : ℕ) (hx : x < W) (hy : y < H)
    (hbg : ¬ 128 < alpha (y * W + x))
    (haxL : 0 < x → ¬ 128 < alpha (y * W + (x - 1)))
    (haxR : x + 1 < W → ¬ 128 < alpha (y * W + (x + 1)))
    (haxU : 0 < y → ¬ 128 < alpha ((y - 1) * W + x))
    (haxD : y + 1 < H → ¬ 128 < alpha ((y + 1) * W + x)) :
    ((w2 : ℚ) : WithTop ℚ) ≤ computeDistanceField W H alpha (y * W + x) := by
  refine field_ge_w2 W H alpha (y * W + x) hbg ?_ ?_ ?_ ?_
  · intro hg
    rw [idx_mod W x y hx] at hg
    rw [show y * W + x - 1 = y * W + (x - 1) from by omega]
    exact haxL hg
  · intro hg
    rw [idx_div W x y hx] at hg
    have hmul := mul_pred_add y W hg
    rw [show y * W + x - W = (y - 1) * W + x from by omega]
    exact haxU hg
  · intro hg
    rw [idx_mod W x y hx] at hg
    rw [show y * W + x + 1 = y * W + (x + 1) from by omega]
    exact haxR (by omega)
  · intro hg
    rw [idx_div W x y hx] at hg
    rw [show y * W + x + W = (y + 1) * W + x from by rw [Nat.succ_mul]; omega]
    exact haxD (by omega)

/-- C2 helper: background pixel whose only foreground neighbors are diagonal,
foreground one step up-left. -/
lemma field_diag_upleft (W H : ℕ) (alpha : ℕ → ℕ) (x y : ℕ) (hx : x < W) (hy : y < H)
    (hbg : ¬ 128 < alpha (y * W + x)) (hxpos : 0 < x) (hypos : 0 < y)
    (hfg : 128 < alpha ((y - 1) * W + (x - 1)))
    (haxL : 0 < x → ¬ 128 < alpha (y * W + (x - 1)))
    (haxR : x + 1 < W → ¬ 128 < alpha (y * W + (x + 1)))
    (haxU : 0 < y → ¬ 128 < alpha ((y - 1) * W + x))
    (haxD : y + 1 < H → ¬ 128 < alpha ((y + 1) * W + x)) :
    computeDistanceField W H alpha (y * W + x) = ((w2 : ℚ) : WithTop ℚ) := by
  have hp : y * W + x < W * H := idx_lt W H x y hx hy
  have hmul := mul_pred_add y W hypos
  apply le_antisymm
  · have hmem : pass1Prefix W alpha (y * W + x) (y * W + x - W - 1) + (w2 : ℚ)
        ∈ fwdCandidates W (pass1Prefix W alpha (y * W + x)) (y * W + x) := by
      have hg1 : 0 < (y * W + x) % W := by rw [idx_mod W x y hx]; exact hxpos
      have hg2 : 0 < (y * W + x) / W := by rw [idx_div W x y hx]; exact hypos
      simp [fwdCandidates, hg1, hg2]
    have h0 : pass1Prefix W alpha (y * W + x) (y * W + x - W - 1) = 0 := by
      refine (distInv_pass1Prefix W alpha (y * W + x)).1 _ ?_
      rw [show y * W + x - W - 1 = (y - 1) * W + (x - 1) from by omega]
      exact hfg
    have hle := pass1_le_candidate W H alpha (y * W + x) _ hp hbg hmem
    rw [h0, zero_add] at hle
    exact (field_le_pass1 W H alpha (y * W + x)).trans hle
  · exact field_ge_w2_coords W H alpha x y hx hy hbg haxL haxR haxU haxD

/-- C2 helper: foreground one step up-right, no foreground axis neighbor. -/
lemma field_diag_upright (W H : ℕ) (alpha : ℕ → ℕ) (x y : ℕ) (hx : x < W) (hy : y < H)
    (hbg : ¬ 128 < alpha (y * W + x)) (hxr : x + 1 < W) (hypos : 0 < y)
    (hfg : 128 < alpha ((y - 1) * W + (x + 1)))
    (haxL : 0 < x → ¬ 128 < alpha (y * W + (x - 1)))
    (haxR : x + 1 < W → ¬ 128 < alpha (y * W + (x + 1)))
    (haxU : 0 < y → ¬ 128 < alpha ((y - 1) * W + x))
    (haxD : y + 1 < H → ¬ 128 < alpha ((y + 1) * W + x)) :
    computeDistanceField W H alpha (y * W + x) = ((w2 : ℚ) : WithTop ℚ) := by
  have hp : y * W + x < W * H := idx_lt W H x y hx hy
  have hmul := mul_pred_add y W hypos
  apply le_antisymm
  · have hmem : pass1Prefix W alpha (y * W + x) (y * W + x - W + 1) + (w2 : ℚ)
        ∈ fwdCandidates W (pass1Prefix W alpha (y * W + x)) (y * W + x) := by
      have hg1 : (y * W + x) % W < W - 1 := by rw [idx_mod W x y hx]; omega
      have hg2 : 0 < (y * W + x) / W := by rw [idx_div W x y hx]; exact hypos
      simp [fwdCandidates, hg1, hg2]
    have h0 : pass1Prefix W alpha (y * W + x) (y * W + x - W + 1) = 0 := by
      refine (distInv_pass1Prefix W alpha (y * W + x)).1 _ ?_
      rw [show y * W + x - W + 1 = (y - 1) * W + (x + 1) from by omega]
      exact hfg
    have hle := pass1_le_candidate W H alpha (y * W + x) _ hp hbg hmem
    rw [h0, zero_add] at hle
    exact (field_le_pass1 W H alpha (y * W + x)).trans hle
  · exact field_ge_w2_coords W H alpha x y hx hy hbg haxL haxR haxU haxD

/-- C2 helper: foreground one step down-right, no foreground axis neighbor. -/
lemma field_diag_downright (W H : ℕ) (alpha : ℕ → ℕ) (x y : ℕ) (hx : x < W) (hy : y < H)
    (hbg : ¬ 128 < alpha (y * W + x)) (hxr : x + 1 < W) (hyr : y + 1 < H)
    (hfg : 128 < alpha ((y + 1) * W + (x + 1)))
    (haxL : 0 < x → ¬ 128 < alpha (y * W + (x - 1)))
    (haxR : x + 1 < W → ¬ 128 < alpha (y * W + (x + 1)))
    (haxU : 0 < y → ¬ 128 < alpha ((y - 1) * W + x))
    (haxD : y + 1 < H → ¬ 128 < alpha ((y + 1) * W + x)) :
    computeDistanceField W H alpha (y * W + x) = ((w2 : ℚ) : WithTop ℚ) := by
  have hp : y * W + x < W * H := idx_lt W H x y hx hy
  have hsucc : (y + 1) * W = y * W + W := Nat.succ_mul y W
  apply le_antisymm
  · have hmem : pass2Prefix W H alpha (y * W + x) (y * W + x + W + 1) + (w2 : ℚ)
        ∈ bwdCandidates W H (pass2Prefix W H alpha (y * W + x)) (y * W + x) := by
      have hg1 : (y * W + x) % W < W - 1 := by rw [idx_mod W x y hx]; omega
      have hg2 : (y * W + x) / W < H - 1 := by rw [idx_div W x y hx]; omega
      simp [bwdCandidates, hg1, hg2]
    have h0 : pass2Prefix W H alpha (y * W + x) (y * W + x + W + 1) = 0 := by
      refine (distInv_pass2Prefix W H alpha (y * W + x)).1 _ ?_
      rw [show y * W + x + W + 1 = (y + 1) * W + (x + 1) from by omega]
      exact hfg
    have hle := field_le_candidate W H alpha (y * W + x) _ hp hbg hmem
    rw [h0, zero_add] at hle
    exact hle
  · exact field_ge_w2_coords W H alpha x y hx hy hbg haxL haxR haxU haxD

/-- C2 helper: foreground one step down-left, no foreground axis neighbor. -/
lemma field_diag_downleft (W H : ℕ) (alpha : ℕ → ℕ) (x y : ℕ) (hx : x < W) (hy : y < H)
    (hbg : ¬ 128 < alpha (y * W + x)) (hxpos : 0 < x) (hyr : y + 1 < H)
    (hfg : 128 < alpha ((y + 1) * W + (x - 1)))
    (haxL : 0 < x → ¬ 128 < alpha (y * W + (x - 1)))
    (haxR : x + 1 < W → ¬ 128 < alpha (y * W + (x + 1)))
    (haxU : 0 < y → ¬ 128 < alpha ((y - 1) * W + x))
    (haxD : y + 1 < H → ¬ 128 < alpha ((y + 1) * W + x)) :
    computeDistanceField W H alpha (y * W + x) = ((w2 : ℚ) : WithTop ℚ) := by
  have hp : y * W + x < W * H := idx_lt W H x y hx hy
  have hsucc : (y + 1) * W = y * W + W := Nat.succ_mul y W
  apply le_antisymm
  · have hmem : pass2Prefix W H alpha (y * W + x) (y * W + x + W - 1) + (w2 : ℚ)
        ∈ bwdCandidates W H (pass2Prefix W H alpha (y * W + x)) (y * W + x) := by
      have hg1 : 0 < (y * W + x) % W := by rw [idx_mod W x y hx]; exact hxpos
      have hg2 : (y * W + x) / W < H - 1 := by rw [idx_div W x y hx]; omega
      simp [bwdCandidates, hg1, hg2]
    have h0 : pass2Prefix W H alpha (y * W + x) (y * W + x + W - 1) = 0 := by
      refine (distInv_pass2Prefix W H alpha (y * W + x)).1 _ ?_
      rw [show y * W + x + W - 1 = (y + 1) * W + (x - 1) from by omega]
      exact hfg
    have hle := field_le_candidate W H alpha (y * W + x) _ hp hbg hmem
    rw [h0, zero_add] at hle
    exact hle
  · exact field_ge_w2_coords W H alpha x y hx hy hbg haxL haxR haxU haxD

lemma mod_left (W idx : ℕ) (hW : 0 < W) (h : 0 < idx % W) :
    (idx - 1) % W = idx % W - 1 := by
  have hdm : idx / W * W + idx % W = idx := by
    rw [Nat.mul_comm]; exact Nat.div_add_mod idx W
  have hmod : idx % W < W := Nat.mod_lt idx hW
  rw [show idx - 1 = idx / W * W + (idx % W - 1) from by omega,
    idx_mod W (idx % W - 1) (idx / W) (by omega)]

lemma mod_right (W idx : ℕ) (hW : 0 < W) (h : idx % W < W - 1) :
    (idx + 1) % W = idx % W + 1 := by
  have hdm : idx / W * W + idx % W = idx := by
    rw [Nat.mul_comm]; exact Nat.div_add_mod idx W
  rw [show idx + 1 = idx / W * W + (idx % W + 1) from by omega,
    idx_mod W (idx % W + 1) (idx / W) (by omega)]

lemma mod_up (W idx : ℕ) (hW : 0 < W) (h : 0 < idx / W) :
    (idx - W) % W = idx % W := by
  have hdm : idx / W * W + idx % W = idx := by
    rw [Nat.mul_comm]; exact Nat.div_add_mod idx W
  have hmod : idx % W < W := Nat.mod_lt idx hW
  have hmul := mul_pred_add (idx / W) W h
  rw [show idx - W = (idx / W - 1) * W + idx % W from by omega,
    idx_mod W (idx % W) (idx / W - 1) hmod]

lemma mod_down (W idx : ℕ) (hW : 0 < W) :
    (idx + W) % W = idx % W := by
  have hdm : idx / W * W + idx % W = idx := by
    rw [Nat.mul_comm]; exact Nat.div_add_mod idx W
  have hmod : idx % W < W := Nat.mod_lt idx hW
  have hsucc : (idx / W + 1) * W = idx / W * W + W := Nat.succ_mul (idx / W) W
  rw [show idx + W = (idx / W + 1) * W + idx % W from by omega,
    idx_mod W (idx % W) (idx / W + 1) hmod]

lemma mod_upleft (W idx : ℕ) (hW : 0 < W) (hx : 0 < idx % W) (hy : 0 < idx / W) :
    (idx - W - 1) % W = idx % W - 1 := by
  have hdm : idx / W * W + idx % W = idx := by
    rw [Nat.mul_comm]; exact Nat.div_add_mod idx W
  have hmod : idx % W < W := Nat.mod_lt idx hW
  have hmul := mul_pred_add (idx / W) W hy
  rw [show idx - W - 1 = (idx / W - 1) * W + (idx % W - 1) from by omega,
    idx_mod W (idx % W - 1) (idx / W - 1) (by omega)]

lemma mod_upright (W idx : ℕ) (hW : 0 < W) (hx : idx % W < W - 1) (hy : 0 < idx / W) :
    (idx - W + 1) % W = idx % W + 1 := by
  have hdm : idx / W * W + idx % W = idx := by
    rw [Nat.mul_comm]; exact Nat.div_add_mod idx W
  have hmul := mul_pred_add (idx / W) W hy
  rw [show idx - W + 1 = (idx / W - 1) * W + (idx % W + 1) from by omega,
    idx_mod W (idx % W + 1) (idx / W - 1) (by omega)]

lemma mod_downright (W idx : ℕ) (hW : 0 < W) (hx : idx % W < W - 1) :
    (idx + W + 1) % W = idx % W + 1 := by
  have hdm : idx / W * W + idx % W = idx := by
    rw [Nat.mul_comm]; exact Nat.div_add_mod idx W
  have hsucc : (idx / W + 1) * W = idx / W * W + W := Nat.succ_mul (idx / W) W
  rw [show idx + W + 1 = (idx / W + 1) * W + (idx % W + 1) from by omega,
    idx_mod W (idx % W + 1) (idx / W + 1) (by omega)]

lemma mod_downleft (W idx : ℕ) (hW : 0 < W) (hx : 0 < idx % W) :
    (idx + W - 1) % W = idx % W - 1 := by
  have hdm : idx / W * W + idx % W = idx := by
    rw [Nat.mul_comm]; exact Nat.div_add_mod idx W
  have hmod : idx % W < W := Nat.mod_lt idx hW
  have hsucc : (idx / W + 1) * W = idx / W * W + W := Nat.succ_mul (idx / W) W
  rw [show idx + W - 1 = (idx / W + 1) * W + (idx % W - 1) from by omega,
    idx_mod W (idx % W - 1) (idx / W + 1) (by omega)]

lemma colLB_candidate (W : ℕ) {d : ℕ → WithTop ℚ} (hP : colLB W d) {n : ℕ} {w : ℚ}
    {x : ℕ} (hineq : (x : ℚ) ≤ ((n % W : ℕ) : ℚ) + w) :
    (((x : ℕ) : ℚ) : WithTop ℚ) ≤ d n + ↑w := by
  calc (((x : ℕ) : ℚ) : WithTop ℚ)
      ≤ ((((n % W : ℕ) : ℚ) + w : ℚ) : WithTop ℚ) := WithTop.coe_le_coe.mpr hineq
  _ = ((((n % W : ℕ) : ℚ) : ℚ) : WithTop ℚ) + ↑w := WithTop.coe_add _ _
  _ ≤ d n + ↑w := add_le_add_right (hP n) _

lemma colLB_seed (W : ℕ) : colLB W (seedDist (leftColMask W)) := by
  intro j
  rw [seedDist, leftColMask]
  by_cases hj : j % W = 0
  · rw [if_pos (by rw [hj]; norm_num), hj]
    exact le_of_eq (by norm_num)
  · rw [if_neg (by rw [if_neg hj]; norm_num)]
    exact le_top

lemma colLB_stepFwd (W : ℕ) (hW : 0 < W) (d : ℕ → WithTop ℚ) (idx : ℕ)
    (h : colLB W d) : colLB W (stepFwd W d idx) := by
  intro j
  rcases eq_or_ne j idx with rfl | hj
  · rw [stepFwd]
    split
    · exact h j
    · rw [Function.update_same]
      refine le_foldl_min _ _ _ (h j) ?_
      intro b hb
      rw [fwdCandidates] at hb
      rcases List.mem_append.mp hb with hb | hb
      · rcases List.mem_append.mp hb with hb | hb
        · rcases List.mem_append.mp hb with hb | hb
          · obtain ⟨hg, rfl⟩ := mem_guard_list hb
            refine colLB_candidate W h ?_
            rw [mod_left W j hW hg, Nat.cast_sub (by omega : 1 ≤ j % W)]
            norm_num [w1]
          · obtain ⟨hg, rfl⟩ := mem_guard_list hb
            refine colLB_candidate W h ?_
            rw [mod_upleft W j hW hg.1 hg.2, Nat.cast_sub (by omega : 1 ≤ j % W)]
            have : (1:ℚ) ≤ w2 := by norm_num [w2]
            push_cast
            linarith
        · obtain ⟨hg, rfl⟩ := mem_guard_list hb
          refine colLB_candidate W h ?_
          rw [mod_up W j hW hg]
          norm_num [w1]
      · obtain ⟨hg, rfl⟩ := mem_guard_list hb
        refine colLB_candidate W h ?_
        rw [mod_upright W j hW hg.1 hg.2]
        have : (1:ℚ) ≤ w2 := by norm_num [w2]
        push_cast
        linarith
  · rw [stepFwd_apply_ne W d idx j hj]
    exact h j

lemma colLB_stepBwd (W H : ℕ) (hW : 0 < W) (d : ℕ → WithTop ℚ) (idx : ℕ)
    (h : colLB W d) : colLB W (stepBwd W H d idx) := by
  intro j
  rcases eq_or_ne j idx with rfl | hj
  · rw [stepBwd]
    split
    · exact h j
    · rw [Function.update_same]
      refine le_foldl_min _ _ _ (h j) ?_
      intro b hb
      rw [bwdCandidates] at hb
      rcases List.mem_append.mp hb with hb | hb
      · rcases List.mem_append.mp hb with hb | hb
        · rcases List.mem_append.mp hb with hb | hb
          · obtain ⟨hg, rfl⟩ := mem_guard_list hb
            refine colLB_candidate W h ?_
            rw [mod_right W j hW hg]
            have : (0:ℚ) ≤ w1 := by norm_num [w1]
            push_cast
            linarith
          · obtain ⟨hg, rfl⟩ := mem_guard_list hb
            refine colLB_candidate W h ?_
            rw [mod_downright W j hW hg.1]
            have : (1:ℚ) ≤ w2 := by norm_num [w2]
            push_cast
            linarith
        · obtain ⟨hg, rfl⟩ := mem_guard_list hb
          refine colLB_candidate W h ?_
          rw [mod_down W j hW]
          have : (0:ℚ) ≤ w1 := by norm_num [w1]
          linarith
      · obtain ⟨hg, rfl⟩ := mem_guard_list hb
        refine colLB_candidate W h ?_
        rw [mod_downleft W j hW hg.1, Nat.cast_sub (by omega : 1 ≤ j % W)]
        have : (1:ℚ) ≤ w2 := by norm_num [w2]
        push_cast
        linarith
  · rw [stepBwd_apply_ne W H d idx j hj]
    exact h j

lemma colLB_field (W H : ℕ) (hW : 0 < W) :
    colLB W (computeDistanceField W H (leftColMask W)) := by
  have h1 : colLB W (chamferPass1 W H (leftColMask W)) :=
    foldl_preserves (stepFwd W) (colLB W) (colLB_stepFwd W hW) _ _ (colLB_seed W)
  exact foldl_preserves (stepBwd W H) (colLB W) (colLB_stepBwd W H hW) _ _ h1

lemma leftColMask_fg (W : ℕ) (hW : 0 < W) (y : ℕ) : 128 < leftColMask W (y * W + 0) := by
  rw [leftColMask, if_pos]
  · norm_num
  · rw [Nat.add_zero, Nat.mul_mod_left]

lemma leftColMask_bg (W : ℕ) (x y : ℕ) (hx : x < W) (hxpos : 0 < x) :
    ¬ 128 < leftColMask W (y * W + x) := by
  rw [leftColMask, if_neg (by rw [idx_mod W x y hx]; omega)]
  norm_num

lemma pass1_leftCol_le (W H : ℕ) (hW : 0 < W) :
    ∀ x y : ℕ, x < W → y < H →
      chamferPass1 W H (leftColMask W) (y * W + x) ≤ (((x : ℕ) : ℚ) : WithTop ℚ) := by
  intro x
  induction x with
  | zero =>
    intro y hx hy
    rw [(distInv_pass1 W H (leftColMask W)).1 _ (leftColMask_fg W hW y)]
    exact le_of_eq (by norm_num)
  | succ x ih =>
    intro y hx hy
    have hp : y * W + (x + 1) < W * H := idx_lt W H (x + 1) y hx hy
    have hbg := leftColMask_bg W (x + 1) y hx (by omega)
    have hmem : pass1Prefix W (leftColMask W) (y * W + (x + 1)) (y * W + (x + 1) - 1)
        + (w1 : ℚ)
        ∈ fwdCandidates W (pass1Prefix W (leftColMask W) (y * W + (x + 1)))
            (y * W + (x + 1)) := by
      have hguard : 0 < (y * W + (x + 1)) % W := by rw [idx_mod W (x + 1) y hx]; omega
      simp [fwdCandidates, hguard]
    have hle := pass1_le_candidate W H (leftColMask W) (y * W + (x + 1)) _ hp hbg hmem
    have hagree : pass1Prefix W (leftColMask W) (y * W + (x + 1)) (y * W + (x + 1) - 1)
        = chamferPass1 W H (leftColMask W) (y * W + x) := by
      rw [show y * W + (x + 1) - 1 = y * W + x from by omega]
      exact pass1_prefix_agrees W H (leftColMask W) (y * W + (x + 1)) (le_of_lt hp)
        (y * W + x) (by omega)
    rw [hagree] at hle
    refine hle.trans ?_
    calc chamferPass1 W H (leftColMask W) (y * W + x) + (w1 : ℚ)
        ≤ (((x : ℕ) : ℚ) : WithTop ℚ) + (w1 : ℚ) :=
          add_le_add_right (ih y (by omega) hy) _
    _ = ((((x : ℕ) : ℚ) + w1 : ℚ) : WithTop ℚ) := (WithTop.coe_add _ _).symm
    _ = (((x + 1 : ℕ) : ℚ) : WithTop ℚ) := by
          push_cast
          norm_num [w1]

/-- Exact distance field of the left-column mask: pixel `(x, y)` is at distance
exactly `x`, so distances are monotone non-decreasing along every horizontal
path moving directly away from the (vertical) mask boundary. -/
lemma field_leftCol (W H : ℕ) (hW : 0 < W) (x y : ℕ) (hx : x < W) (hy : y < H) :
    computeDistanceField W H (leftColMask W) (y * W + x) = (((x : ℕ) : ℚ) : WithTop ℚ) := by
  apply le_antisymm
  · exact (field_le_pass1 W H (leftColMask W) _).trans (pass1_leftCol_le W H hW x y hx hy)
  · have h := colLB_field W H hW (y * W + x)
    rw [idx_mod W x y hx] at h
    exact h

/-- The source's diagonal weight 1.41421356 is within `10⁻⁷` of `√2`. -/
lemma w2_approx_sqrt2 : |((w2 : ℚ) : ℝ) - Real.sqrt 2| < 1 / 10 ^ 7 := by
  have hle : ((w2 : ℚ) : ℝ) ≤ Real.sqrt 2 := by
    refine Real.le_sqrt_of_sq_le ?_
    norm_num [w2]
  have hlt : Real.sqrt 2 < ((w2 : ℚ) : ℝ) + 1 / 10 ^ 7 := by
    refine (Real.sqrt_lt' (by norm_num [w2])).mpr ?_
    norm_num [w2]
  rw [abs_of_nonpos (by linarith)]
  linarith

/-- C2: the two-pass chamfer distance field.  Seeds are 0 at alpha over 128 and
`Infinity` elsewhere; every foreground pixel ends at distance exactly 0; a
background pixel one axis step from a foreground pixel ends at exactly 1.0; a
background pixel one diagonal step from a foreground pixel (with no foreground
axis neighbor) ends at exactly the diagonal weight 1.41421356, which is within
`10⁻⁷` of `√2`; and on the vertical-boundary (left-column) mask the field equals
the exact horizontal distance `x`, hence is monotone non-decreasing along every
straight horizontal path moving directly away from the nearest boundary. -/
theorem C2_chamfer_distance_field (W H : ℕ) (alpha : ℕ → ℕ) :
    (∀ i, seedDist alpha i = if 128 < alpha i then 0 else ⊤) ∧
    (∀ i, 128 < alpha i → computeDistanceField W H alpha i = 0) ∧
    (∀ x y, x < W → y < H → ¬ 128 < alpha (y * W + x) →
      ((0 < x ∧ 128 < alpha (y * W + (x - 1))) ∨
       (x + 1 < W ∧ 128 < alpha (y * W + (x + 1))) ∨
       (0 < y ∧ 128 < alpha ((y - 1) * W + x)) ∨
       (y + 1 < H ∧ 128 < alpha ((y + 1) * W + x))) →
      computeDistanceField W H alpha (y * W + x) = 1) ∧
    (∀ x y, x < W → y < H → ¬ 128 < alpha (y * W + x) →
      (0 < x → ¬ 128 < alpha (y * W + (x - 1))) →
      (x + 1 < W → ¬ 128 < alpha (y * W + (x + 1))) →
      (0 < y → ¬ 128 < alpha ((y - 1) * W + x)) →
      (y + 1 < H → ¬ 128 < alpha ((y + 1) * W + x)) →
      ((0 < x ∧ 0 < y ∧ 128 < alpha ((y - 1) * W + (x - 1))) ∨
       (x + 1 < W ∧ 0 < y ∧ 128 < alpha ((y - 1) * W + (x + 1))) ∨
       (x + 1 < W ∧ y + 1 < H ∧ 128 < alpha ((y + 1) * W + (x + 1))) ∨
       (0 < x ∧ y + 1 < H ∧ 128 < alpha ((y + 1) * W + (x - 1)))) →
      computeDistanceField W H alpha (y * W + x) = ((w2 : ℚ) : WithTop ℚ)) ∧
    |((w2 : ℚ) : ℝ) - Real.sqrt 2| < 1 / 10 ^ 7 ∧
    (0 < W → ∀ x y, x < W → y < H →
      computeDistanceField W H (leftColMask W) (y * W + x) = (((x : ℕ) : ℚ) : WithTop ℚ)) ∧
    (0 < W → ∀ y x1 x2, x2 < W → y < H → x1 ≤ x2 →
      computeDistanceField W H (leftColMask W) (y * W + x1)
        ≤ computeDistanceField W H (leftColMask W) (y * W + x2)) := by
  refine ⟨fun i => rfl, ?_, ?_, ?_, w2_approx_sqrt2, ?_, ?_⟩
  · intro i hi
    exact (distInv_field W H alpha).1 i hi
  · intro x y hx hy hbg hcase
    rcases hcase with ⟨h1, h2⟩ | ⟨h1, h2⟩ | ⟨h1, h2⟩ | ⟨h1, h2⟩
    · exact field_axis_left W H alpha x y hx hy hbg h1 h2
    · exact field_axis_right W H alpha x y hx hy hbg h1 h2
    · exact field_axis_up W H alpha x y hx hy hbg h1 h2
    · exact field_axis_down W H alpha x y hx hy hbg h1 h2
  · intro x y hx hy hbg haxL haxR haxU haxD hcase
    rcases hcase with ⟨h1, h2, h3⟩ | ⟨h1, h2, h3⟩ | ⟨h1, h2, h3⟩ | ⟨h1, h2, h3⟩
    · exact field_diag_upleft W H alpha x y hx hy hbg h1 h2 h3 haxL haxR haxU haxD
    · exact field_diag_upright W H alpha x y hx hy hbg h1 h2 h3 haxL haxR haxU haxD
    · exact field_diag_downright W H alpha x y hx hy hbg h1 h2 h3 haxL haxR haxU haxD
    · exact field_diag_downleft W H alpha x y hx hy hbg h1 h2 h3 haxL haxR haxU haxD
  · intro hW x y hx hy
    exact field_leftCol W H hW x y hx hy
  · intro hW y x1 x2 hx2 hy hle
    rw [field_leftCol W H hW x1 y (by omega) hy, field_leftCol W H hW x2 y hx2 hy]
    exact WithTop.coe_le_coe.mpr (by exact_mod_cast hle)

/-- Witness for C2 on a 3×3 grid with a single foreground pixel at the top-left
corner, and on the 3×3 left-column mask. -/
theorem C2_chamfer_distance_field_witness :
    computeDistanceField 3 3 (fun i => if i = 0 then 255 else 0) 0 = 0 ∧
    computeDistanceField 3 3 (fun i => if i = 0 then 255 else 0) 1 = 1 ∧
    computeDistanceField 3 3 (fun i => if i = 0 then 255 else 0) 4
      = ((w2 : ℚ) : WithTop ℚ) ∧
    computeDistanceField 3 3 (leftColMask 3) 5 = (((2 : ℕ) : ℚ) : WithTop ℚ) ∧
    computeDistanceField 3 3 (leftColMask 3) 1
      ≤ computeDistanceField 3 3 (leftColMask 3) 2 := by
  refine ⟨?_, ?_, ?_, ?_, ?_⟩
  · exact (C2_chamfer_distance_field 3 3 (fun i => if i = 0 then 255 else 0)).2.1 0
      (by norm_num)
  · exact (C2_chamfer_distance_field 3 3 (fun i => if i = 0 then 255 else 0)).2.2.1 1 0
      (by norm_num) (by norm_num) (by norm_num)
      (Or.inl ⟨by norm_num, by norm_num⟩)
  · exact (C2_chamfer_distance_field 3 3 (fun i => if i = 0 then 255 else 0)).2.2.2.1 1 1
      (by norm_num) (by norm_num) (by norm_num)
      (fun _ => by norm_num) (fun _ => by norm_num) (fun _ => by norm_num)
      (fun _ => by norm_num)
      (Or.inl ⟨by norm_num, by norm_num, by norm_num⟩)
  · exact (C2_chamfer_distance_field 3 3 (fun _ => 0)).2.2.2.2.2.1 (by norm_num) 2 1
      (by norm_num) (by norm_num)
  · exact (C2_chamfer_distance_field 3 3 (fun _ => 0)).2.2.2.2.2.2 (by norm_num) 0 1 2
      (by norm_num) (by norm_num) (by norm_num)

/-- C9: a disabled silhouette layer renders fully transparent — for every mask,
center and configuration with `enabled = false`, every pixel of the returned
layer has alpha 0, regardless of the configured widths, blurs, mode, color or
offsets, and regardless of the blur/paint primitives. -/
theorem C9_disabled_layer_transparent (blurOp : ℚ → Grid → Grid)
    (fillPaintAlpha : ℤ × ℤ → ℕ) (logicalW logicalH scale : ℚ)
    (masterMask : Grid) (center : ℚ × ℚ) (config : SilhouetteLayerParams)
    (hoff : config.enabled = false) :
    ∀ q, renderAccessoryLayer blurOp fillPaintAlpha logicalW logicalH scale
      masterMask center config q = 0 := by
  intro q
  rw [renderAccessoryLayer, if_pos hoff]

/-- Witness for C9: a disabled layer with aggressive widths, blurs and offsets
still renders alpha 0 (sampled at the canvas origin and one interior pixel). -/
theorem C9_disabled_layer_transparent_witness :
    renderAccessoryLayer (fun _ g => g) (fun _ => 255) 400 500 1 (fun _ => 255)
      (200, 250)
      { enabled := false, strokeWidth := 40, strokeWidthMid := 12,
        strokeWidthEnd := 2, strokeScale := 3, isGradientMode := true,
        color := "#ff0000", gradientStops := [], blurStart := 9, blurMid := 9,
        blurEnd := 9, opacity := 1, xOffset := 25, yOffset := -25 } (0, 0) = 0 ∧
    renderAccessoryLayer (fun _ g => g) (fun _ => 255) 400 500 1 (fun _ => 255)
      (200, 250)
      { enabled := false, strokeWidth := 40, strokeWidthMid := 12,
        strokeWidthEnd := 2, strokeScale := 3, isGradientMode := true,
        color := "#ff0000", gradientStops := [], blurStart := 9, blurMid := 9,
        blurEnd := 9, opacity := 1, xOffset := 25, yOffset := -25 } (7, 7) = 0 := by
  constructor
  · exact C9_disabled_layer_transparent (fun _ g => g) (fun _ => 255) 400 500 1
      (fun _ => 255) (200, 250) _ rfl (0, 0)
  · exact C9_disabled_layer_transparent (fun _ g => g) (fun _ => 255) 400 500 1
      (fun _ => 255) (200, 250) _ rfl (7, 7)
